import Mathlib

/-!
# Reprojection residuals of a camera rig (aliceVision/rig/ResidualError.hpp)

A shallow embedding of the three residual functors of `ResidualError.hpp` and
proofs of their documented properties.

Conventions of the embedding.

* The functors' `operator()` is a template over the scalar type `T`; the
  embedding is generic over a field `T` (exact arithmetic).  The captured
  `double` members are held in the same type `T`, so the casts `T(...)` of the
  source are identities.  Division is the division of the field.
* Fixed-size buffers (`T[2]`, `T[3]`, `T[6]`, `Vec2`, `Vec3`, `Mat3`) are total
  maps from their index range; `_params`, on which the constructor performs
  exactly three `push_back`, is a map from `Fin 3`.
* `operator()` returns its `bool` result together with the contents written to
  `out_residuals`.
* `ceres::AngleAxisRotatePoint` and `ceres::RotationMatrixToAngleAxis` are
  library functions outside the repository; the functors take them as
  parameters.  Models of the two functions following the specification are
  given in namespace `ceres` for the statements that need concrete rotations.
-/

namespace ceres

/-- Modelled from the spec: the library function `ceres::AngleAxisRotatePoint`,
which is not among the sources.  Section 4.1 of the specification: the point is
multiplied by the rotation matrix that the exponential map (Rodrigues formula)
assigns to the axis-angle vector, direction the axis and magnitude the angle,
and the zero rotation (identity) is handled without a division by zero.  The
square root, sine and cosine of the scalar type are parameters. -/
def AngleAxisRotatePoint {T : Type} [Field T] [DecidableEq T]
    (sqrt sin cos : T → T) (angle_axis pt : Fin 3 → T) : Fin 3 → T :=
  let theta2 := angle_axis 0 * angle_axis 0 + angle_axis 1 * angle_axis 1
    + angle_axis 2 * angle_axis 2
  if theta2 = 0 then
    -- zero rotation: the identity
    pt
  else
    -- Rodrigues formula: pt cos(theta) + (w x pt) sin(theta) + w (w . pt) (1 - cos(theta))
    let theta := sqrt theta2
    let costheta := cos theta
    let sintheta := sin theta
    let theta_inverse := 1 / theta
    let w : Fin 3 → T := ![angle_axis 0 * theta_inverse, angle_axis 1 * theta_inverse,
      angle_axis 2 * theta_inverse]
    let w_cross_pt : Fin 3 → T := ![w 1 * pt 2 - w 2 * pt 1, w 2 * pt 0 - w 0 * pt 2,
      w 0 * pt 1 - w 1 * pt 0]
    let tmp := (w 0 * pt 0 + w 1 * pt 1 + w 2 * pt 2) * (1 - costheta)
    ![pt 0 * costheta + w_cross_pt 0 * sintheta + w 0 * tmp,
      pt 1 * costheta + w_cross_pt 1 * sintheta + w 1 * tmp,
      pt 2 * costheta + w_cross_pt 2 * sintheta + w 2 * tmp]

/-- Modelled from the spec: the library function
`ceres::RotationMatrixToAngleAxis`, which is not among the sources.  Section 6
of the specification: the conversion follows the standard matrix-logarithm
convention compatible with the exponential map of the rotation.  With
theta = acos((trace - 1) / 2), the logarithm of R is
theta / (2 sin theta) * (R - R transposed), read as the vector
(R21 - R12, R02 - R20, R10 - R01); the identity (trace 3) gives the zero
vector; for a half turn (trace -1), where R - R transposed vanishes, R + 1 is
twice the projection on the axis, and the axis is the normalized column of
R + 1 through its largest diagonal entry.  The square root, arc cosine and sine
of the scalar type are parameters. -/
def RotationMatrixToAngleAxis {T : Type} [LinearOrderedField T] (sqrt acos sin : T → T)
    (R : Matrix (Fin 3) (Fin 3) T) : Fin 3 → T :=
  let trace := R 0 0 + R 1 1 + R 2 2
  let theta := acos ((trace - 1) / 2)
  if trace = 3 then
    -- identity: the zero vector
    ![0, 0, 0]
  else if trace = -1 then
    -- half turn: R + 1 = 2 w wᵀ, the axis w is a normalized column of R + 1
    let S := R + 1
    let i : Fin 3 :=
      if R 1 1 ≤ R 0 0 ∧ R 2 2 ≤ R 0 0 then 0 else if R 2 2 ≤ R 1 1 then 1 else 2
    let norm := sqrt (2 * S i i)
    ![theta * (S 0 i / norm), theta * (S 1 i / norm), theta * (S 2 i / norm)]
  else
    -- log R = theta / (2 sin theta) * (R - Rᵀ)
    let k := theta / (2 * sin theta)
    ![k * (R 2 1 - R 1 2), k * (R 0 2 - R 2 0), k * (R 1 0 - R 0 1)]

end ceres

namespace aliceVision

/-- Two-component vector of the source (`Vec2`, `T[2]`), indexed by 0 and 1. -/
abbrev Vec2 (T : Type) : Type := Fin 2 → T

/-- Three-component vector of the source (`Vec3`, `T[3]`), indexed by 0, 1, 2. -/
abbrev Vec3 (T : Type) : Type := Fin 3 → T

/-- The 3x3 matrix type of the source (`Mat3`), entry `(i, j)` read as `M i j`. -/
abbrev Mat3 (T : Type) : Type := Matrix (Fin 3) (Fin 3) T

/-- A pose parameter block: six values, rotation (angle axis) in positions
0..2 and translation in positions 3..5. -/
abbrev PoseBlock (T : Type) : Type := Fin 6 → T

namespace camera

/-- Modelled from the spec: the class `camera::Pinhole`, whose declaration is
not among the sources.
Section 6 of the specification: the intrinsics collaborator offers a queryable
3x3 calibration matrix and an ordered parameter vector read at fixed offsets.
The vector is indexed by position, as `getParams()[i]` in the source. -/
structure Pinhole (T : Type) where
  /-- The calibration matrix returned by `K()`. -/
  K : Mat3 T
  /-- The ordered parameter vector returned by `getParams()`, by position. -/
  getParams : Nat → T

end camera

namespace geometry

/-- Modelled from the spec: the class `geometry::Pose3`, whose declaration
is not among the sources.
Section 6 of the specification: a pose is a rotation matrix plus a translation
vector. -/
structure Pose3 (T : Type) where
  /-- The rotation matrix returned by `rotation()`. -/
  rotation : Mat3 T
  /-- The translation vector returned by `translation()`. -/
  translation : Vec3 T

end geometry

namespace rig

variable {T : Type}

/-- The private members of `ResidualErrorMainCameraFunctor`. -/
structure ResidualErrorMainCameraFunctor (T : Type) where
  /-- Calibration matrix. -/
  _K : Mat3 T
  /-- The captured coefficients K1, K2, K3. -/
  _params : Fin 3 → T
  /-- The 3D point. -/
  _point : Vec3 T
  /-- Its image location. -/
  _observation : Vec2 T

/-- The private members of `ResidualErrorSecondaryCameraFunctor`. -/
structure ResidualErrorSecondaryCameraFunctor (T : Type) where
  /-- Calibration matrix. -/
  _K : Mat3 T
  /-- The captured coefficients K1, K2, K3. -/
  _params : Fin 3 → T
  /-- The 3D point. -/
  _point : Vec3 T
  /-- Its image location. -/
  _observation : Vec2 T

/-- The private members of `ResidualErrorSecondaryCameraFixedRelativeFunctor`. -/
structure ResidualErrorSecondaryCameraFixedRelativeFunctor (T : Type) where
  /-- Calibration matrix. -/
  _K : Mat3 T
  /-- The captured coefficients K1, K2, K3. -/
  _params : Fin 3 → T
  /-- The 3D point. -/
  _point : Vec3 T
  /-- Its image location. -/
  _observation : Vec2 T
  /-- The relative pose of the witness camera, in angle axis format. -/
  _relativePose : Fin 6 → T

/-- The constructor of `ResidualErrorMainCameraFunctor` (source lines 22-40). -/
def ResidualErrorMainCameraFunctor.construct (intrinsics : camera.Pinhole T)
    (pt2d : Vec2 T) (pt3d : Vec3 T) : ResidualErrorMainCameraFunctor T :=
  ⟨intrinsics.K,
   ![intrinsics.getParams 4, intrinsics.getParams 5, intrinsics.getParams 6],
   ![pt3d 0, pt3d 1, pt3d 2],
   ![pt2d 0, pt2d 1]⟩

/-- The constructor of `ResidualErrorSecondaryCameraFunctor` (source lines 128-148). -/
def ResidualErrorSecondaryCameraFunctor.construct (intrinsics : camera.Pinhole T)
    (pt2d : Vec2 T) (pt3d : Vec3 T) : ResidualErrorSecondaryCameraFunctor T :=
  ⟨intrinsics.K,
   ![intrinsics.getParams 3, intrinsics.getParams 4, intrinsics.getParams 5],
   ![pt3d 0, pt3d 1, pt3d 2],
   ![pt2d 0, pt2d 1]⟩

/-- The constructor of `ResidualErrorSecondaryCameraFixedRelativeFunctor`
(source lines 254-285).  `RotationMatrixToAngleAxis` is the ceres conversion
called at line 280; its three outputs fill positions 0..2 of `_relativePose`. -/
def ResidualErrorSecondaryCameraFixedRelativeFunctor.construct
    (RotationMatrixToAngleAxis : Mat3 T → Vec3 T)
    (intrinsics : camera.Pinhole T) (pt2d : Vec2 T) (pt3d : Vec3 T)
    (relativePose : geometry.Pose3 T) :
    ResidualErrorSecondaryCameraFixedRelativeFunctor T :=
  let R := relativePose.rotation
  let t := relativePose.translation
  let angleAxis := RotationMatrixToAngleAxis R
  ⟨intrinsics.K,
   ![intrinsics.getParams 3, intrinsics.getParams 4, intrinsics.getParams 5],
   ![pt3d 0, pt3d 1, pt3d 2],
   ![pt2d 0, pt2d 1],
   ![angleAxis 0, angleAxis 1, angleAxis 2, t 0, t 1, t 2]⟩

/-- The call operator of `ResidualErrorMainCameraFunctor` (source lines 59-116):
the returned pair is the `bool` result and the contents of `out_residuals`. -/
def ResidualErrorMainCameraFunctor.operator [Field T]
    (self : ResidualErrorMainCameraFunctor T)
    (AngleAxisRotatePoint : Vec3 T → Vec3 T → Vec3 T)
    (cam_Rt : PoseBlock T) : Bool × Vec2 T :=
  let cam_R : Vec3 T := ![cam_Rt 0, cam_Rt 1, cam_Rt 2]
  let cam_t : Vec3 T := ![cam_Rt 3, cam_Rt 4, cam_Rt 5]
  let pos_3dpoint : Vec3 T := ![self._point 0, self._point 1, self._point 2]
  -- Rotate the point according the camera rotation
  let pos_rot : Vec3 T := AngleAxisRotatePoint cam_R pos_3dpoint
  -- Apply the camera translation
  let pos_proj : Vec3 T :=
    ![pos_rot 0 + cam_t 0, pos_rot 1 + cam_t 1, pos_rot 2 + cam_t 2]
  -- Transform the point from homogeneous to euclidean (undistorted point)
  let x_u := pos_proj 0 / pos_proj 2
  let y_u := pos_proj 1 / pos_proj 2
  -- Apply intrinsic parameters
  let focal := self._K 0 0
  let principal_point_x := self._K 0 2
  let principal_point_y := self._K 1 2
  let k1 := self._params 0
  let k2 := self._params 1
  let k3 := self._params 2
  -- Apply distortion (xd,yd) = disto(x_u,y_u)
  let r2 := x_u * x_u + y_u * y_u
  let r4 := r2 * r2
  let r6 := r4 * r2
  let r_coeff := 1 + k1 * r2 + k2 * r4 + k3 * r6
  let x_d := x_u * r_coeff
  let y_d := y_u * r_coeff
  -- Apply focal length and principal point to get the final image coordinates
  let projected_x := principal_point_x + focal * x_d
  let projected_y := principal_point_y + focal * y_d
  -- the error is the difference between the predicted and observed position
  (true, ![projected_x - self._observation 0, projected_y - self._observation 1])

/-- The call operator of `ResidualErrorSecondaryCameraFunctor` (source lines
168-237). -/
def ResidualErrorSecondaryCameraFunctor.operator [Field T]
    (self : ResidualErrorSecondaryCameraFunctor T)
    (AngleAxisRotatePoint : Vec3 T → Vec3 T → Vec3 T)
    (cam_Rt_main cam_Rt_relative : PoseBlock T) : Bool × Vec2 T :=
  let RMain : Vec3 T := ![cam_Rt_main 0, cam_Rt_main 1, cam_Rt_main 2]
  let tMain : Vec3 T := ![cam_Rt_main 3, cam_Rt_main 4, cam_Rt_main 5]
  let RRelative : Vec3 T :=
    ![cam_Rt_relative 0, cam_Rt_relative 1, cam_Rt_relative 2]
  let tRelative : Vec3 T :=
    ![cam_Rt_relative 3, cam_Rt_relative 4, cam_Rt_relative 5]
  let pos_3dpoint : Vec3 T := ![self._point 0, self._point 1, self._point 2]
  -- first rotation, by RMain (line 188), then translation by tMain
  let pos_rot : Vec3 T := AngleAxisRotatePoint RMain pos_3dpoint
  let pos_tmp : Vec3 T :=
    ![pos_rot 0 + tMain 0, pos_rot 1 + tMain 1, pos_rot 2 + tMain 2]
  -- second rotation, by RRelative (line 197), then translation by tRelative
  let pos_rot2 : Vec3 T := AngleAxisRotatePoint RRelative pos_tmp
  let pos_proj : Vec3 T :=
    ![pos_rot2 0 + tRelative 0, pos_rot2 1 + tRelative 1, pos_rot2 2 + tRelative 2]
  -- Transform the point from homogeneous to euclidean (undistorted point)
  let x_u := pos_proj 0 / pos_proj 2
  let y_u := pos_proj 1 / pos_proj 2
  -- Apply intrinsic parameters
  let focal := self._K 0 0
  let principal_point_x := self._K 0 2
  let principal_point_y := self._K 1 2
  let k1 := self._params 0
  let k2 := self._params 1
  let k3 := self._params 2
  -- Apply distortion (xd,yd) = disto(x_u,y_u)
  let r2 := x_u * x_u + y_u * y_u
  let r4 := r2 * r2
  let r6 := r4 * r2
  let r_coeff := 1 + k1 * r2 + k2 * r4 + k3 * r6
  let x_d := x_u * r_coeff
  let y_d := y_u * r_coeff
  -- Apply focal length and principal point to get the final image coordinates
  let projected_x := principal_point_x + focal * x_d
  let projected_y := principal_point_y + focal * y_d
  -- the error is the difference between the predicted and observed position
  (true, ![projected_x - self._observation 0, projected_y - self._observation 1])

/-- The call operator of `ResidualErrorSecondaryCameraFixedRelativeFunctor`
(source lines 302-377). -/
def ResidualErrorSecondaryCameraFixedRelativeFunctor.operator [Field T]
    (self : ResidualErrorSecondaryCameraFixedRelativeFunctor T)
    (AngleAxisRotatePoint : Vec3 T → Vec3 T → Vec3 T)
    (cam_Rt_main : PoseBlock T) : Bool × Vec2 T :=
  let RMain : Vec3 T := ![cam_Rt_main 0, cam_Rt_main 1, cam_Rt_main 2]
  let tMain : Vec3 T := ![cam_Rt_main 3, cam_Rt_main 4, cam_Rt_main 5]
  let RRelative : Vec3 T :=
    ![self._relativePose 0, self._relativePose 1, self._relativePose 2]
  let tRelative : Vec3 T :=
    ![self._relativePose 3, self._relativePose 4, self._relativePose 5]
  let pos_3dpoint : Vec3 T := ![self._point 0, self._point 1, self._point 2]
  -- Rotate the point according the main rotation first, then translate
  let pos_rot : Vec3 T := AngleAxisRotatePoint RMain pos_3dpoint
  let pos_tmp : Vec3 T :=
    ![pos_rot 0 + tMain 0, pos_rot 1 + tMain 1, pos_rot 2 + tMain 2]
  -- Rotate the point according the relative camera rotation, then translate
  let pos_rot2 : Vec3 T := AngleAxisRotatePoint RRelative pos_tmp
  let pos_proj : Vec3 T :=
    ![pos_rot2 0 + tRelative 0, pos_rot2 1 + tRelative 1, pos_rot2 2 + tRelative 2]
  -- Transform the point from homogeneous to euclidean (undistorted point)
  let x_u := pos_proj 0 / pos_proj 2
  let y_u := pos_proj 1 / pos_proj 2
  -- Apply intrinsic parameters
  let focal := self._K 0 0
  let principal_point_x := self._K 0 2
  let principal_point_y := self._K 1 2
  let k1 := self._params 0
  let k2 := self._params 1
  let k3 := self._params 2
  -- Apply distortion (xd,yd) = disto(x_u,y_u)
  let r2 := x_u * x_u + y_u * y_u
  let r4 := r2 * r2
  let r6 := r4 * r2
  let r_coeff := 1 + k1 * r2 + k2 * r4 + k3 * r6
  let x_d := x_u * r_coeff
  let y_d := y_u * r_coeff
  -- Apply focal length and principal point to get the final image coordinates
  let projected_x := principal_point_x + focal * x_d
  let projected_y := principal_point_y + focal * y_d
  -- the error is the difference between the predicted and observed position
  (true, ![projected_x - self._observation 0, projected_y - self._observation 1])

/-- The Rigid Transform Primitive of the specification (section 4.1): the
point is rotated by the axis-angle part of the pose block (positions 0..2) and
the translation part (positions 3..5) is added. -/
def RigidTransform [Add T] (rotate : Vec3 T → Vec3 T → Vec3 T)
    (pose : PoseBlock T) (P : Vec3 T) : Vec3 T :=
  fun i => rotate ![pose 0, pose 1, pose 2] P i + ![pose 3, pose 4, pose 5] i

/-- Step 1 of the projection model of the specification (section 4.2): the
normalized coordinates x_u = x/z, y_u = y/z of a camera-space point. -/
def Normalize [Field T] (X : Vec3 T) : Vec2 T :=
  ![X 0 / X 2, X 1 / X 2]

/-- Step 2 of the projection model: the squared radius r2 = x_u^2 + y_u^2. -/
def SquaredRadius [Field T] (u : Vec2 T) : T :=
  u 0 ^ 2 + u 1 ^ 2

/-- Steps 2 and 3 of the projection model: with r4 = r2^2 and r6 = r4*r2, the
radial scale factor c = 1 + k1*r2 + k2*r4 + k3*r6. -/
def RadialFactor [Field T] (k : Fin 3 → T) (r2 : T) : T :=
  let r4 := r2 ^ 2
  let r6 := r4 * r2
  1 + k 0 * r2 + k 1 * r4 + k 2 * r6

/-- The Radial Distortion + Projection Model of the specification (section
4.2), steps 1 to 5, for a camera-space point `X`: the distorted normalized
coordinates are x_d = x_u*c, y_d = y_u*c and the pixel is
(principal_x + focal*x_d, principal_y + focal*y_d). -/
def RadialProjection [Field T] (K : Mat3 T) (k : Fin 3 → T) (X : Vec3 T) : Vec2 T :=
  let u := Normalize X
  let c := RadialFactor k (SquaredRadius u)
  let x_d := u 0 * c
  let y_d := u 1 * c
  ![K 0 2 + K 0 0 * x_d, K 1 2 + K 0 0 * y_d]

end rig

end aliceVision

namespace aliceVision

namespace rig

variable {T : Type}

/-! ## Shared lemmas -/

/-- A three-component buffer filled entry by entry from `v` is `v`. -/
theorem vec3_eta (v : Fin 3 → T) : ![v 0, v 1, v 2] = v := by
  funext i
  fin_cases i <;> rfl

/-- A two-component buffer filled entry by entry from `v` is `v`. -/
theorem vec2_eta (v : Fin 2 → T) : ![v 0, v 1] = v := by
  funext i
  fin_cases i <;> rfl

/-- Position 3 of a six-value block. -/
theorem block_val_three (a b c d e g : T) : (![a, b, c, d, e, g] : Fin 6 → T) 3 = d := rfl

/-- Position 4 of a six-value block. -/
theorem block_val_four (a b c d e g : T) : (![a, b, c, d, e, g] : Fin 6 → T) 4 = e := rfl

/-- Position 5 of a six-value block. -/
theorem block_val_five (a b c d e g : T) : (![a, b, c, d, e, g] : Fin 6 → T) 5 = g := rfl

/-- The projection model sends a camera-space point with x = y = 0 and depth z
different from 0 to the principal point, whatever the coefficients and the
focal length: the normalized coordinates are 0 / z = 0. -/
theorem radial_projection_centre [Field T] (K : Mat3 T) (k : Fin 3 → T) (X : Vec3 T)
    (hx : X 0 = 0) (hy : X 1 = 0) (_hz : X 2 ≠ 0) :
    RadialProjection K k X = ![K 0 2, K 1 2] := by
  have hn : Normalize X = ![0, 0] := by
    simp only [Normalize, hx, hy, zero_div]
  funext i
  fin_cases i <;> simp [RadialProjection, hn]

/-- The rotation model leaves every point fixed at the zero axis-angle vector,
whatever the square root, sine and cosine are. -/
theorem rotate_zero [Field T] [DecidableEq T] (sqrt sin cos : T → T) (pt : Fin 3 → T) :
    ceres.AngleAxisRotatePoint sqrt sin cos ![0, 0, 0] pt = pt := by
  simp [ceres.AngleAxisRotatePoint]

/-- The rotation model over the reals turns a point by a quarter turn about the
z axis at the axis-angle vector (0, 0, pi/2). -/
theorem rotate_quarter_z (pt : Fin 3 → ℝ) :
    ceres.AngleAxisRotatePoint Real.sqrt Real.sin Real.cos ![0, 0, Real.pi / 2] pt =
      ![-pt 1, pt 0, pt 2] := by
  have hpos : (0 : ℝ) < Real.pi / 2 := by positivity
  have hne : Real.pi / 2 ≠ 0 := ne_of_gt hpos
  have hsq : Real.sqrt (Real.pi / 2 * (Real.pi / 2)) = Real.pi / 2 :=
    Real.sqrt_mul_self hpos.le
  funext i
  fin_cases i <;>
    simp [ceres.AngleAxisRotatePoint, hne, hsq, Real.pi_ne_zero]

/-- The main functor computes the projection model of the specification on the
rigidly transformed point, minus the observation. -/
theorem main_operator_eq [Field T] (f : ResidualErrorMainCameraFunctor T)
    (rotate : Vec3 T → Vec3 T → Vec3 T) (p : PoseBlock T) :
    (f.operator rotate p).2 =
      fun i => RadialProjection f._K f._params (RigidTransform rotate p f._point) i
        - f._observation i := by
  funext i
  fin_cases i
  · simp only [ResidualErrorMainCameraFunctor.operator, RadialProjection, Normalize, SquaredRadius, RadialFactor, RigidTransform,
      vec3_eta, Matrix.cons_val_zero, Matrix.cons_val_one, Matrix.head_cons,
      Matrix.cons_val_two, Matrix.tail_cons, Fin.zero_eta, Fin.mk_one]
    ring
  · simp only [ResidualErrorMainCameraFunctor.operator, RadialProjection, Normalize, SquaredRadius, RadialFactor, RigidTransform,
      vec3_eta, Matrix.cons_val_zero, Matrix.cons_val_one, Matrix.head_cons,
      Matrix.cons_val_two, Matrix.tail_cons, Fin.zero_eta, Fin.mk_one]
    ring

/-- The joint secondary functor computes the projection model on the point
transformed by the main pose and then by the relative pose. -/
theorem secondary_operator_eq [Field T] (f : ResidualErrorSecondaryCameraFunctor T)
    (rotate : Vec3 T → Vec3 T → Vec3 T) (m r : PoseBlock T) :
    (f.operator rotate m r).2 =
      fun i => RadialProjection f._K f._params
          (RigidTransform rotate r (RigidTransform rotate m f._point)) i
        - f._observation i := by
  have h : (![rotate ![m 0, m 1, m 2] f._point 0 + m 3,
      rotate ![m 0, m 1, m 2] f._point 1 + m 4,
      rotate ![m 0, m 1, m 2] f._point 2 + m 5] : Vec3 T)
      = RigidTransform rotate m f._point := by
    funext i
    fin_cases i <;> rfl
  funext i
  fin_cases i
  · simp only [ResidualErrorSecondaryCameraFunctor.operator, vec3_eta,
      Matrix.cons_val_zero, Matrix.cons_val_one, Matrix.head_cons, Matrix.cons_val_two,
      Matrix.tail_cons, Fin.zero_eta, Fin.mk_one, h]
    simp only [RadialProjection, Normalize, SquaredRadius, RadialFactor, RigidTransform, Matrix.cons_val_zero, Matrix.cons_val_one,
      Matrix.head_cons, Matrix.cons_val_two, Matrix.tail_cons]
    ring
  · simp only [ResidualErrorSecondaryCameraFunctor.operator, vec3_eta,
      Matrix.cons_val_zero, Matrix.cons_val_one, Matrix.head_cons, Matrix.cons_val_two,
      Matrix.tail_cons, Fin.zero_eta, Fin.mk_one, h]
    simp only [RadialProjection, Normalize, SquaredRadius, RadialFactor, RigidTransform, Matrix.cons_val_zero, Matrix.cons_val_one,
      Matrix.head_cons, Matrix.cons_val_two, Matrix.tail_cons]
    ring

/-- The fixed-offset functor computes the projection model on the point
transformed by the main pose and then by the stored relative pose. -/
theorem fixed_operator_eq [Field T]
    (f : ResidualErrorSecondaryCameraFixedRelativeFunctor T)
    (rotate : Vec3 T → Vec3 T → Vec3 T) (m : PoseBlock T) :
    (f.operator rotate m).2 =
      fun i => RadialProjection f._K f._params
          (RigidTransform rotate f._relativePose (RigidTransform rotate m f._point)) i
        - f._observation i := by
  have h : (![rotate ![m 0, m 1, m 2] f._point 0 + m 3,
      rotate ![m 0, m 1, m 2] f._point 1 + m 4,
      rotate ![m 0, m 1, m 2] f._point 2 + m 5] : Vec3 T)
      = RigidTransform rotate m f._point := by
    funext i
    fin_cases i <;> rfl
  funext i
  fin_cases i
  · simp only [ResidualErrorSecondaryCameraFixedRelativeFunctor.operator, vec3_eta,
      Matrix.cons_val_zero, Matrix.cons_val_one, Matrix.head_cons, Matrix.cons_val_two,
      Matrix.tail_cons, Fin.zero_eta, Fin.mk_one, h]
    simp only [RadialProjection, Normalize, SquaredRadius, RadialFactor, RigidTransform, Matrix.cons_val_zero, Matrix.cons_val_one,
      Matrix.head_cons, Matrix.cons_val_two, Matrix.tail_cons]
    ring
  · simp only [ResidualErrorSecondaryCameraFixedRelativeFunctor.operator, vec3_eta,
      Matrix.cons_val_zero, Matrix.cons_val_one, Matrix.head_cons, Matrix.cons_val_two,
      Matrix.tail_cons, Fin.zero_eta, Fin.mk_one, h]
    simp only [RadialProjection, Normalize, SquaredRadius, RadialFactor, RigidTransform, Matrix.cons_val_zero, Matrix.cons_val_one,
      Matrix.head_cons, Matrix.cons_val_two, Matrix.tail_cons]
    ring

/-- On a two-component vector, the pointwise difference with `o` vanishes
exactly when the vector is `o`. -/
theorem vec2_sub_eq_zero_iff [AddGroup T] (u o : Vec2 T) :
    (fun i => u i - o i) = ![0, 0] ↔ o = u := by
  constructor
  · intro h
    funext i
    have hi := congrFun h i
    fin_cases i
    · exact (sub_eq_zero.mp (by simpa using hi)).symm
    · exact (sub_eq_zero.mp (by simpa using hi)).symm
  · intro h
    subst h
    funext i
    fin_cases i <;> simp

/-- The rigid transform with the rotation model and the all-zero pose block is
the identity. -/
theorem rigid_transform_zero_pose [Field T] [DecidableEq T] (sqrt sin cos : T → T)
    (P : Vec3 T) :
    RigidTransform (ceres.AngleAxisRotatePoint sqrt sin cos) ![0, 0, 0, 0, 0, 0] P = P := by
  funext i
  fin_cases i <;>
    simp [RigidTransform, rotate_zero, block_val_three, block_val_four, block_val_five]

/-- The normalized coordinates of a point given by its entries. -/
theorem normalize_entries [Field T] (x y z : T) :
    Normalize ![x, y, z] = ![x / z, y / z] := by
  funext i
  fin_cases i <;> simp [Normalize]

/-- The squared radius of a normalized point given by its entries. -/
theorem squared_radius_entries [Field T] (a b : T) :
    SquaredRadius ![a, b] = a ^ 2 + b ^ 2 := by
  simp [SquaredRadius]

/-- The radial factor for coefficients given by their entries. -/
theorem radial_factor_entries [Field T] (k1 k2 k3 r2 : T) :
    RadialFactor ![k1, k2, k3] r2 = 1 + k1 * r2 + k2 * r2 ^ 2 + k3 * (r2 ^ 2 * r2) := by
  simp [RadialFactor]

/-- The projection model on a calibration matrix, coefficients and a point
given by their entries. -/
theorem radial_projection_entries [Field T]
    (K00 K01 K02 K10 K11 K12 K20 K21 K22 k1 k2 k3 x y z : T) :
    RadialProjection !![K00, K01, K02; K10, K11, K12; K20, K21, K22] ![k1, k2, k3]
        ![x, y, z] =
      ![K02 + K00 * (x / z * (1 + k1 * ((x / z) ^ 2 + (y / z) ^ 2)
            + k2 * ((x / z) ^ 2 + (y / z) ^ 2) ^ 2
            + k3 * (((x / z) ^ 2 + (y / z) ^ 2) ^ 2 * ((x / z) ^ 2 + (y / z) ^ 2)))),
        K12 + K00 * (y / z * (1 + k1 * ((x / z) ^ 2 + (y / z) ^ 2)
            + k2 * ((x / z) ^ 2 + (y / z) ^ 2) ^ 2
            + k3 * (((x / z) ^ 2 + (y / z) ^ 2) ^ 2 * ((x / z) ^ 2 + (y / z) ^ 2))))] := by
  funext i
  fin_cases i <;> simp [RadialProjection, Normalize, SquaredRadius, RadialFactor]

/-- The pointwise difference of two vectors given by their entries. -/
theorem vec2_sub_entries [Sub T] (a b c d : T) :
    (fun i => (![a, b] : Vec2 T) i - (![c, d] : Vec2 T) i) = ![a - c, b - d] := by
  funext i
  fin_cases i <;> rfl

/-- Two-component vectors with equal entries are equal. -/
theorem vec2_congr (a b c d : T) (h1 : a = c) (h2 : b = d) :
    (![a, b] : Vec2 T) = ![c, d] := by
  rw [h1, h2]

/-! ## Claims -/

/-- C1: for every captured calibration, coefficients, point and observation and
every pose block p (axis-angle p0..p2, translation p3..p5), the main functor
writes (K02 + K00*x_u*c - o_x, K12 + K00*y_u*c - o_y), where (x,y,z) is the
rotated point plus the translation, x_u = x/z, y_u = y/z, r2 = x_u^2 + y_u^2
and c = 1 + k1*r2 + k2*r2^2 + k3*r2^3: distortion acts on the normalized
coordinates before the focal scaling, and the residual is predicted minus
observed. -/
theorem main_residual_formula [Field T] (f : ResidualErrorMainCameraFunctor T)
    (rotate : Vec3 T → Vec3 T → Vec3 T) (p : PoseBlock T) :
    let X := rotate ![p 0, p 1, p 2] f._point
    let x := X 0 + p 3
    let y := X 1 + p 4
    let z := X 2 + p 5
    let x_u := x / z
    let y_u := y / z
    let r2 := x_u ^ 2 + y_u ^ 2
    let c := 1 + f._params 0 * r2 + f._params 1 * r2 ^ 2 + f._params 2 * r2 ^ 3
    (f.operator rotate p).2 =
      ![f._K 0 2 + f._K 0 0 * x_u * c - f._observation 0,
        f._K 1 2 + f._K 0 0 * y_u * c - f._observation 1] := by
  intro X x y z x_u y_u r2 c
  funext i
  fin_cases i
  · simp only [ResidualErrorMainCameraFunctor.operator, vec3_eta, Matrix.cons_val_zero,
      Matrix.cons_val_one, Matrix.head_cons, Matrix.cons_val_two, Matrix.tail_cons,
      Fin.zero_eta, Fin.mk_one, X, x, y, z, x_u, y_u, r2, c]
    ring
  · simp only [ResidualErrorMainCameraFunctor.operator, vec3_eta, Matrix.cons_val_zero,
      Matrix.cons_val_one, Matrix.head_cons, Matrix.cons_val_two, Matrix.tail_cons,
      Fin.zero_eta, Fin.mk_one, X, x, y, z, x_u, y_u, r2, c]
    ring

/-- C2: for every main pose block m and relative pose block r, the joint
secondary functor projects the camera-space point rotate(r, rotate(m, P) + t_m)
+ t_r (main transform first, relative transform second) with the same
distortion and projection formula as the main functor, and outputs the
projected pixel minus the observation. -/
theorem secondary_residual_formula [Field T] (f : ResidualErrorSecondaryCameraFunctor T)
    (rotate : Vec3 T → Vec3 T → Vec3 T) (m r : PoseBlock T) :
    let Y := rotate ![m 0, m 1, m 2] f._point
    let Q : Vec3 T := ![Y 0 + m 3, Y 1 + m 4, Y 2 + m 5]
    let X := rotate ![r 0, r 1, r 2] Q
    let x := X 0 + r 3
    let y := X 1 + r 4
    let z := X 2 + r 5
    let x_u := x / z
    let y_u := y / z
    let r2 := x_u ^ 2 + y_u ^ 2
    let c := 1 + f._params 0 * r2 + f._params 1 * r2 ^ 2 + f._params 2 * r2 ^ 3
    (f.operator rotate m r).2 =
      ![f._K 0 2 + f._K 0 0 * x_u * c - f._observation 0,
        f._K 1 2 + f._K 0 0 * y_u * c - f._observation 1] := by
  intro Y Q X x y z x_u y_u r2 c
  funext i
  fin_cases i
  · simp only [ResidualErrorSecondaryCameraFunctor.operator, vec3_eta, Matrix.cons_val_zero,
      Matrix.cons_val_one, Matrix.head_cons, Matrix.cons_val_two, Matrix.tail_cons,
      Fin.zero_eta, Fin.mk_one, Y, Q, X, x, y, z, x_u, y_u, r2, c]
    ring
  · simp only [ResidualErrorSecondaryCameraFunctor.operator, vec3_eta, Matrix.cons_val_zero,
      Matrix.cons_val_one, Matrix.head_cons, Matrix.cons_val_two, Matrix.tail_cons,
      Fin.zero_eta, Fin.mk_one, Y, Q, X, x, y, z, x_u, y_u, r2, c]
    ring

/-- C3 (frozen-offset equivalence): for every relative pose (R, t), every
captured calibration, coefficients, point and observation and every rig pose
block p, the fixed-offset functor constructed with (R, t) and evaluated at p
returns the residual of the joint secondary functor (same captured data)
evaluated at main pose p and relative pose block
(RotationMatrixToAngleAxis(R), t). -/
theorem fixed_relative_equivalence [Field T] (rotate : Vec3 T → Vec3 T → Vec3 T)
    (RotationMatrixToAngleAxis : Mat3 T → Vec3 T) (intrinsics : camera.Pinhole T)
    (pt2d : Vec2 T) (pt3d : Vec3 T) (R : Mat3 T) (t : Vec3 T) (p : PoseBlock T) :
    ((ResidualErrorSecondaryCameraFixedRelativeFunctor.construct RotationMatrixToAngleAxis
        intrinsics pt2d pt3d ⟨R, t⟩).operator rotate p).2 =
      ((ResidualErrorSecondaryCameraFunctor.construct intrinsics pt2d pt3d).operator rotate p
        ![RotationMatrixToAngleAxis R 0, RotationMatrixToAngleAxis R 1,
          RotationMatrixToAngleAxis R 2, t 0, t 1, t 2]).2 := by
  -- both sides are the projection of the same twice-transformed point
  rw [fixed_operator_eq, secondary_operator_eq]
  rfl

/-- C4 (zero residual, both directions): for each of the three functors and
every pose input, the residual is exactly (0,0) if and only if the captured
observation equals the pixel that the transform-then-project pipeline of the
functor predicts for the captured point under that pose, calibration and
coefficients. -/
theorem zero_residual_iff [Field T] (rotate : Vec3 T → Vec3 T → Vec3 T)
    (fm : ResidualErrorMainCameraFunctor T) (fs : ResidualErrorSecondaryCameraFunctor T)
    (ff : ResidualErrorSecondaryCameraFixedRelativeFunctor T) (p m r q : PoseBlock T) :
    ((fm.operator rotate p).2 = ![0, 0] ↔
      fm._observation =
        RadialProjection fm._K fm._params (RigidTransform rotate p fm._point)) ∧
    ((fs.operator rotate m r).2 = ![0, 0] ↔
      fs._observation =
        RadialProjection fs._K fs._params
          (RigidTransform rotate r (RigidTransform rotate m fs._point))) ∧
    ((ff.operator rotate q).2 = ![0, 0] ↔
      ff._observation =
        RadialProjection ff._K ff._params
          (RigidTransform rotate ff._relativePose (RigidTransform rotate q ff._point))) := by
  refine ⟨?_, ?_, ?_⟩
  · rw [main_operator_eq]
    exact vec2_sub_eq_zero_iff _ _
  · rw [secondary_operator_eq]
    exact vec2_sub_eq_zero_iff _ _
  · rw [fixed_operator_eq]
    exact vec2_sub_eq_zero_iff _ _

/-- C5 (order sensitivity): there are captured data and pose blocks a, b for
which the joint secondary functor gives different residuals with main = a,
relative = b and with main = b, relative = a; namely a = quarter turn about the
z axis without translation, b = zero rotation with translation (1,0,0), point
(1,0,10): with focal 1000, principal point (500,400), no distortion and
observation (0,0) the residuals are (600,500) and (500,600). -/
theorem secondary_order_sensitive :
    ∃ (f : ResidualErrorSecondaryCameraFunctor ℝ) (a b : PoseBlock ℝ),
      a = ![0, 0, Real.pi / 2, 0, 0, 0] ∧ b = ![0, 0, 0, 1, 0, 0] ∧
      f._point = ![1, 0, 10] ∧
      (f.operator (ceres.AngleAxisRotatePoint Real.sqrt Real.sin Real.cos) a b).2 =
        ![600, 500] ∧
      (f.operator (ceres.AngleAxisRotatePoint Real.sqrt Real.sin Real.cos) b a).2 =
        ![500, 600] ∧
      (f.operator (ceres.AngleAxisRotatePoint Real.sqrt Real.sin Real.cos) a b).2 ≠
        (f.operator (ceres.AngleAxisRotatePoint Real.sqrt Real.sin Real.cos) b a).2 := by
  have hab : ((ResidualErrorSecondaryCameraFunctor.mk
      !![1000, 0, 500; 0, 1000, 400; 0, 0, 1] ![0, 0, 0] ![1, 0, 10] ![0, 0]).operator
      (ceres.AngleAxisRotatePoint Real.sqrt Real.sin Real.cos)
      ![0, 0, Real.pi / 2, 0, 0, 0] ![0, 0, 0, 1, 0, 0]).2 = ![600, 500] := by
    funext i
    fin_cases i
    · simp [ResidualErrorSecondaryCameraFunctor.operator, rotate_zero, rotate_quarter_z,
        block_val_three, block_val_four, block_val_five]
      norm_num
    · simp [ResidualErrorSecondaryCameraFunctor.operator, rotate_zero, rotate_quarter_z,
        block_val_three, block_val_four, block_val_five]
      norm_num
  have hba : ((ResidualErrorSecondaryCameraFunctor.mk
      !![1000, 0, 500; 0, 1000, 400; 0, 0, 1] ![0, 0, 0] ![1, 0, 10] ![0, 0]).operator
      (ceres.AngleAxisRotatePoint Real.sqrt Real.sin Real.cos)
      ![0, 0, 0, 1, 0, 0] ![0, 0, Real.pi / 2, 0, 0, 0]).2 = ![500, 600] := by
    funext i
    fin_cases i
    · simp [ResidualErrorSecondaryCameraFunctor.operator, rotate_zero, rotate_quarter_z,
        block_val_three, block_val_four, block_val_five]
    · simp [ResidualErrorSecondaryCameraFunctor.operator, rotate_zero, rotate_quarter_z,
        block_val_three, block_val_four, block_val_five]
      norm_num
  refine ⟨⟨!![1000, 0, 500; 0, 1000, 400; 0, 0, 1], ![0, 0, 0], ![1, 0, 10], ![0, 0]⟩,
    ![0, 0, Real.pi / 2, 0, 0, 0], ![0, 0, 0, 1, 0, 0], rfl, rfl, rfl, hab, hba, ?_⟩
  rw [hab, hba]
  intro h
  have h0 := congrFun h 0
  norm_num at h0

/-- C6 (distortion-coefficient offsets): for every intrinsics parameter vector,
the main functor captures the entries at positions 4, 5, 6 and the two
secondary functors capture the entries at positions 3, 4, 5, and every later
evaluation uses the captured values as k1, k2, k3 of the radial factor. -/
theorem distortion_offsets [Field T] (rotate : Vec3 T → Vec3 T → Vec3 T)
    (RotationMatrixToAngleAxis : Mat3 T → Vec3 T) (intrinsics : camera.Pinhole T)
    (pt2d : Vec2 T) (pt3d : Vec3 T) (relativePose : geometry.Pose3 T) :
    ((ResidualErrorMainCameraFunctor.construct intrinsics pt2d pt3d)._params =
        ![intrinsics.getParams 4, intrinsics.getParams 5, intrinsics.getParams 6] ∧
      (ResidualErrorSecondaryCameraFunctor.construct intrinsics pt2d pt3d)._params =
        ![intrinsics.getParams 3, intrinsics.getParams 4, intrinsics.getParams 5] ∧
      (ResidualErrorSecondaryCameraFixedRelativeFunctor.construct RotationMatrixToAngleAxis
          intrinsics pt2d pt3d relativePose)._params =
        ![intrinsics.getParams 3, intrinsics.getParams 4, intrinsics.getParams 5]) ∧
    (∀ p : PoseBlock T,
      ((ResidualErrorMainCameraFunctor.construct intrinsics pt2d pt3d).operator rotate p).2 =
        fun i => RadialProjection intrinsics.K
            ![intrinsics.getParams 4, intrinsics.getParams 5, intrinsics.getParams 6]
            (RigidTransform rotate p pt3d) i - pt2d i) ∧
    (∀ m r : PoseBlock T,
      ((ResidualErrorSecondaryCameraFunctor.construct intrinsics pt2d pt3d).operator
          rotate m r).2 =
        fun i => RadialProjection intrinsics.K
            ![intrinsics.getParams 3, intrinsics.getParams 4, intrinsics.getParams 5]
            (RigidTransform rotate r (RigidTransform rotate m pt3d)) i - pt2d i) ∧
    (∀ m : PoseBlock T,
      ((ResidualErrorSecondaryCameraFixedRelativeFunctor.construct RotationMatrixToAngleAxis
          intrinsics pt2d pt3d relativePose).operator rotate m).2 =
        fun i => RadialProjection intrinsics.K
            ![intrinsics.getParams 3, intrinsics.getParams 4, intrinsics.getParams 5]
            (RigidTransform rotate
              ![RotationMatrixToAngleAxis relativePose.rotation 0,
                RotationMatrixToAngleAxis relativePose.rotation 1,
                RotationMatrixToAngleAxis relativePose.rotation 2,
                relativePose.translation 0, relativePose.translation 1,
                relativePose.translation 2]
              (RigidTransform rotate m pt3d)) i - pt2d i) := by
  refine ⟨⟨rfl, rfl, rfl⟩, ?_, ?_, ?_⟩
  · intro p
    rw [main_operator_eq]
    simp only [ResidualErrorMainCameraFunctor.construct, vec3_eta, vec2_eta]
  · intro m r
    rw [secondary_operator_eq]
    simp only [ResidualErrorSecondaryCameraFunctor.construct, vec3_eta, vec2_eta]
  · intro m
    rw [fixed_operator_eq]
    simp only [ResidualErrorSecondaryCameraFixedRelativeFunctor.construct, vec3_eta, vec2_eta]

/-- C7 (undistorted boundary case): with captured coefficients k1 = k2 = k3 = 0,
each of the three functors returns, for every pose input, the pinhole residual
(K02 + K00*x/z - o_x, K12 + K00*y/z - o_y), where (x,y,z) is the point after
the rigid transform(s) of the functor. -/
theorem undistorted_pinhole [Field T] (rotate : Vec3 T → Vec3 T → Vec3 T)
    (K : Mat3 T) (P : Vec3 T) (o : Vec2 T) (rel p m r q : PoseBlock T) :
    let X1 := RigidTransform rotate p P
    let X2 := RigidTransform rotate r (RigidTransform rotate m P)
    let X3 := RigidTransform rotate rel (RigidTransform rotate q P)
    ((ResidualErrorMainCameraFunctor.mk K ![0, 0, 0] P o).operator rotate p).2 =
        ![K 0 2 + K 0 0 * X1 0 / X1 2 - o 0, K 1 2 + K 0 0 * X1 1 / X1 2 - o 1] ∧
    ((ResidualErrorSecondaryCameraFunctor.mk K ![0, 0, 0] P o).operator rotate m r).2 =
        ![K 0 2 + K 0 0 * X2 0 / X2 2 - o 0, K 1 2 + K 0 0 * X2 1 / X2 2 - o 1] ∧
    ((ResidualErrorSecondaryCameraFixedRelativeFunctor.mk K ![0, 0, 0] P o rel).operator
        rotate q).2 =
        ![K 0 2 + K 0 0 * X3 0 / X3 2 - o 0, K 1 2 + K 0 0 * X3 1 / X3 2 - o 1] := by
  intro X1 X2 X3
  refine ⟨?_, ?_, ?_⟩
  · rw [main_operator_eq]
    funext i
    fin_cases i
    · simp only [RadialProjection, Normalize, SquaredRadius, RadialFactor,
        Matrix.cons_val_zero, Matrix.cons_val_one,
        Matrix.head_cons, Matrix.cons_val_two, Matrix.tail_cons, Fin.zero_eta, Fin.mk_one, X1]
      ring
    · simp only [RadialProjection, Normalize, SquaredRadius, RadialFactor,
        Matrix.cons_val_zero, Matrix.cons_val_one,
        Matrix.head_cons, Matrix.cons_val_two, Matrix.tail_cons, Fin.zero_eta, Fin.mk_one, X1]
      ring
  · rw [secondary_operator_eq]
    funext i
    fin_cases i
    · simp only [RadialProjection, Normalize, SquaredRadius, RadialFactor,
        Matrix.cons_val_zero, Matrix.cons_val_one,
        Matrix.head_cons, Matrix.cons_val_two, Matrix.tail_cons, Fin.zero_eta, Fin.mk_one, X2]
      ring
    · simp only [RadialProjection, Normalize, SquaredRadius, RadialFactor,
        Matrix.cons_val_zero, Matrix.cons_val_one,
        Matrix.head_cons, Matrix.cons_val_two, Matrix.tail_cons, Fin.zero_eta, Fin.mk_one, X2]
      ring
  · rw [fixed_operator_eq]
    funext i
    fin_cases i
    · simp only [RadialProjection, Normalize, SquaredRadius, RadialFactor,
        Matrix.cons_val_zero, Matrix.cons_val_one,
        Matrix.head_cons, Matrix.cons_val_two, Matrix.tail_cons, Fin.zero_eta, Fin.mk_one, X3]
      ring
    · simp only [RadialProjection, Normalize, SquaredRadius, RadialFactor,
        Matrix.cons_val_zero, Matrix.cons_val_one,
        Matrix.head_cons, Matrix.cons_val_two, Matrix.tail_cons, Fin.zero_eta, Fin.mk_one, X3]
      ring

/-- C8 (distortion at image centre): for every choice of coefficients, if the
transformed camera-space point of a functor has x = y = 0 and depth z different
from 0 (so that x_u = y_u = 0), the predicted pixel is exactly the principal
point (K02, K12) and the residual is (K02 - o_x, K12 - o_y), without k1, k2, k3
or the focal length. -/
theorem image_centre_invariance [Field T] (rotate : Vec3 T → Vec3 T → Vec3 T)
    (fm : ResidualErrorMainCameraFunctor T) (fs : ResidualErrorSecondaryCameraFunctor T)
    (ff : ResidualErrorSecondaryCameraFixedRelativeFunctor T) (p m r q : PoseBlock T) :
    (RigidTransform rotate p fm._point 0 = 0 ∧ RigidTransform rotate p fm._point 1 = 0 ∧
        RigidTransform rotate p fm._point 2 ≠ 0 →
      Normalize (RigidTransform rotate p fm._point) = ![0, 0] ∧
        RadialProjection fm._K fm._params (RigidTransform rotate p fm._point) =
          ![fm._K 0 2, fm._K 1 2] ∧
        (fm.operator rotate p).2 =
          ![fm._K 0 2 - fm._observation 0, fm._K 1 2 - fm._observation 1]) ∧
    (RigidTransform rotate r (RigidTransform rotate m fs._point) 0 = 0 ∧
        RigidTransform rotate r (RigidTransform rotate m fs._point) 1 = 0 ∧
        RigidTransform rotate r (RigidTransform rotate m fs._point) 2 ≠ 0 →
      Normalize (RigidTransform rotate r (RigidTransform rotate m fs._point)) = ![0, 0] ∧
        RadialProjection fs._K fs._params
          (RigidTransform rotate r (RigidTransform rotate m fs._point)) =
          ![fs._K 0 2, fs._K 1 2] ∧
        (fs.operator rotate m r).2 =
          ![fs._K 0 2 - fs._observation 0, fs._K 1 2 - fs._observation 1]) ∧
    (RigidTransform rotate ff._relativePose (RigidTransform rotate q ff._point) 0 = 0 ∧
        RigidTransform rotate ff._relativePose (RigidTransform rotate q ff._point) 1 = 0 ∧
        RigidTransform rotate ff._relativePose (RigidTransform rotate q ff._point) 2 ≠ 0 →
      Normalize (RigidTransform rotate ff._relativePose
          (RigidTransform rotate q ff._point)) = ![0, 0] ∧
        RadialProjection ff._K ff._params
          (RigidTransform rotate ff._relativePose (RigidTransform rotate q ff._point)) =
          ![ff._K 0 2, ff._K 1 2] ∧
        (ff.operator rotate q).2 =
          ![ff._K 0 2 - ff._observation 0, ff._K 1 2 - ff._observation 1]) := by
  have hnorm : ∀ X : Vec3 T, X 0 = 0 → X 1 = 0 → X 2 ≠ 0 → Normalize X = ![0, 0] := by
    intro X hx hy _
    simp only [Normalize, hx, hy, zero_div]
  refine ⟨?_, ?_, ?_⟩
  · rintro ⟨hx, hy, hz⟩
    have hc := radial_projection_centre fm._K fm._params _ hx hy hz
    refine ⟨hnorm _ hx hy hz, hc, ?_⟩
    rw [main_operator_eq, hc]
    funext i
    fin_cases i <;> rfl
  · rintro ⟨hx, hy, hz⟩
    have hc := radial_projection_centre fs._K fs._params _ hx hy hz
    refine ⟨hnorm _ hx hy hz, hc, ?_⟩
    rw [secondary_operator_eq, hc]
    funext i
    fin_cases i <;> rfl
  · rintro ⟨hx, hy, hz⟩
    have hc := radial_projection_centre ff._K ff._params _ hx hy hz
    refine ⟨hnorm _ hx hy hz, hc, ?_⟩
    rw [fixed_operator_eq, hc]
    funext i
    fin_cases i <;> rfl

/-- Witness for C8 over the rationals: the point (0,0,10) under all-zero pose
blocks has x = y = 0 and depth 10, different from 0, for the three functors;
with coefficients (1,2,3) and focal 1000 the three residuals are the principal
point (500,400) minus the observation (7,9), entry by entry. -/
theorem image_centre_invariance_witness :
    ((ResidualErrorMainCameraFunctor.mk !![1000, 0, 500; 0, 1000, 400; 0, 0, 1]
        ![1, 2, 3] ![0, 0, 10] ![7, 9]).operator
        (ceres.AngleAxisRotatePoint id id id) ![0, 0, 0, 0, 0, 0]).2 =
      (![500 - 7, 400 - 9] : Vec2 ℚ) ∧
    ((ResidualErrorSecondaryCameraFunctor.mk !![1000, 0, 500; 0, 1000, 400; 0, 0, 1]
        ![1, 2, 3] ![0, 0, 10] ![7, 9]).operator
        (ceres.AngleAxisRotatePoint id id id) ![0, 0, 0, 0, 0, 0] ![0, 0, 0, 0, 0, 0]).2 =
      (![500 - 7, 400 - 9] : Vec2 ℚ) ∧
    ((ResidualErrorSecondaryCameraFixedRelativeFunctor.mk
        !![1000, 0, 500; 0, 1000, 400; 0, 0, 1]
        ![1, 2, 3] ![0, 0, 10] ![7, 9] ![0, 0, 0, 0, 0, 0]).operator
        (ceres.AngleAxisRotatePoint id id id) ![0, 0, 0, 0, 0, 0]).2 =
      (![500 - 7, 400 - 9] : Vec2 ℚ) := by
  have h := image_centre_invariance (ceres.AngleAxisRotatePoint (id : ℚ → ℚ) id id)
    (ResidualErrorMainCameraFunctor.mk !![1000, 0, 500; 0, 1000, 400; 0, 0, 1]
      ![1, 2, 3] ![0, 0, 10] ![7, 9])
    (ResidualErrorSecondaryCameraFunctor.mk !![1000, 0, 500; 0, 1000, 400; 0, 0, 1]
      ![1, 2, 3] ![0, 0, 10] ![7, 9])
    (ResidualErrorSecondaryCameraFixedRelativeFunctor.mk
      !![1000, 0, 500; 0, 1000, 400; 0, 0, 1]
      ![1, 2, 3] ![0, 0, 10] ![7, 9] ![0, 0, 0, 0, 0, 0])
    ![0, 0, 0, 0, 0, 0] ![0, 0, 0, 0, 0, 0] ![0, 0, 0, 0, 0, 0] ![0, 0, 0, 0, 0, 0]
  have hz : (![0, 0, 10] : Vec3 ℚ) 2 ≠ 0 := by
    simp only [Matrix.cons_val_two, Matrix.tail_cons, Matrix.head_cons]
    norm_num
  refine ⟨?_, ?_, ?_⟩
  · exact (h.1 (by
      simp only [rigid_transform_zero_pose]
      exact ⟨rfl, rfl, hz⟩)).2.2
  · exact (h.2.1 (by
      simp only [rigid_transform_zero_pose]
      exact ⟨rfl, rfl, hz⟩)).2.2
  · exact (h.2.2 (by
      simp only [rigid_transform_zero_pose]
      exact ⟨rfl, rfl, hz⟩)).2.2

/-- C9 (concrete scenario without distortion): with focal 1000, principal point
(500,400), k = (0,0,0), the identity pose block and observation (500,400), the
main functor returns residual (0,0) for the point (0,0,10) and residual (100,0)
for the point (1,0,10), whose predicted pixel is (600,400). -/
theorem scenario_undistorted (sqrt sin cos : ℚ → ℚ) (a b c d e g : ℚ) :
    ((ResidualErrorMainCameraFunctor.mk !![1000, a, 500; b, c, 400; d, e, g]
        ![0, 0, 0] ![0, 0, 10] ![500, 400]).operator
        (ceres.AngleAxisRotatePoint sqrt sin cos) ![0, 0, 0, 0, 0, 0]).2 = ![0, 0] ∧
    ((ResidualErrorMainCameraFunctor.mk !![1000, a, 500; b, c, 400; d, e, g]
        ![0, 0, 0] ![1, 0, 10] ![500, 400]).operator
        (ceres.AngleAxisRotatePoint sqrt sin cos) ![0, 0, 0, 0, 0, 0]).2 = ![100, 0] ∧
    RadialProjection !![1000, a, 500; b, c, 400; d, e, g] ![0, 0, 0]
        (RigidTransform (ceres.AngleAxisRotatePoint sqrt sin cos) ![0, 0, 0, 0, 0, 0]
          ![1, 0, 10]) = ![600, 400] := by
  refine ⟨?_, ?_, ?_⟩
  · rw [main_operator_eq, rigid_transform_zero_pose, radial_projection_entries,
      vec2_sub_entries]
    exact vec2_congr _ _ _ _ (by norm_num) (by norm_num)
  · rw [main_operator_eq, rigid_transform_zero_pose, radial_projection_entries,
      vec2_sub_entries]
    exact vec2_congr _ _ _ _ (by norm_num) (by norm_num)
  · rw [rigid_transform_zero_pose, radial_projection_entries]
    exact vec2_congr _ _ _ _ (by norm_num) (by norm_num)

/-- C10 (concrete scenario with distortion): with focal 1000, principal point
(500,400), k1 = 1/100, k2 = k3 = 0, the identity pose block, point (1,0,10) and
observation (600,400): the normalized point is (1/10, 0), r2 = 1/100, the
radial factor is c = 10001/10000, the predicted pixel is (60001/100, 400) and
the main functor returns residual (1/100, 0), in exact rational arithmetic. -/
theorem scenario_distorted (sqrt sin cos : ℚ → ℚ) (a b c d e g : ℚ) :
    Normalize (RigidTransform (ceres.AngleAxisRotatePoint sqrt sin cos)
        ![0, 0, 0, 0, 0, 0] ![1, 0, 10]) = ![1 / 10, 0] ∧
    SquaredRadius (Normalize (RigidTransform (ceres.AngleAxisRotatePoint sqrt sin cos)
        ![0, 0, 0, 0, 0, 0] ![1, 0, 10])) = 1 / 100 ∧
    RadialFactor ![1 / 100, 0, 0]
        (SquaredRadius (Normalize (RigidTransform (ceres.AngleAxisRotatePoint sqrt sin cos)
          ![0, 0, 0, 0, 0, 0] ![1, 0, 10]))) = 10001 / 10000 ∧
    RadialProjection !![1000, a, 500; b, c, 400; d, e, g] ![1 / 100, 0, 0]
        (RigidTransform (ceres.AngleAxisRotatePoint sqrt sin cos) ![0, 0, 0, 0, 0, 0]
          ![1, 0, 10]) = ![60001 / 100, 400] ∧
    ((ResidualErrorMainCameraFunctor.mk !![1000, a, 500; b, c, 400; d, e, g]
        ![1 / 100, 0, 0] ![1, 0, 10] ![600, 400]).operator
        (ceres.AngleAxisRotatePoint sqrt sin cos) ![0, 0, 0, 0, 0, 0]).2 = ![1 / 100, 0] := by
  refine ⟨?_, ?_, ?_, ?_, ?_⟩
  · rw [rigid_transform_zero_pose, normalize_entries]
    exact vec2_congr _ _ _ _ (by norm_num) (by norm_num)
  · rw [rigid_transform_zero_pose, normalize_entries, squared_radius_entries]
    norm_num
  · rw [rigid_transform_zero_pose, normalize_entries, squared_radius_entries,
      radial_factor_entries]
    norm_num
  · rw [rigid_transform_zero_pose, radial_projection_entries]
    exact vec2_congr _ _ _ _ (by norm_num) (by norm_num)
  · rw [main_operator_eq, rigid_transform_zero_pose, radial_projection_entries,
      vec2_sub_entries]
    exact vec2_congr _ _ _ _ (by norm_num) (by norm_num)

/-! ## Further shared lemmas -/

/-- The rigid transform of a point by a block given by its entries. -/
theorem rigid_transform_entries [Add T] (rotate : Vec3 T → Vec3 T → Vec3 T)
    (w t : Vec3 T) (P : Vec3 T) :
    RigidTransform rotate ![w 0, w 1, w 2, t 0, t 1, t 2] P =
      fun i => rotate w P i + t i := by
  have hw : (![(![w 0, w 1, w 2, t 0, t 1, t 2] : PoseBlock T) 0,
      (![w 0, w 1, w 2, t 0, t 1, t 2] : PoseBlock T) 1,
      (![w 0, w 1, w 2, t 0, t 1, t 2] : PoseBlock T) 2] : Vec3 T) = w := vec3_eta w
  funext i
  simp only [RigidTransform]
  rw [hw]
  fin_cases i <;> rfl

/-- The rigid transform with the rotation model and a zero axis-angle part adds
the translation part. -/
theorem rigid_transform_zero_rotation [Field T] [DecidableEq T] (sqrt sin cos : T → T)
    (P t : Vec3 T) :
    RigidTransform (ceres.AngleAxisRotatePoint sqrt sin cos) ![0, 0, 0, t 0, t 1, t 2] P =
      fun i => P i + t i := by
  funext i
  fin_cases i <;>
    simp [RigidTransform, rotate_zero, block_val_three, block_val_four, block_val_five]

/-- The projection model gives the same pixel for a point and for its multiple
by a nonzero scalar. -/
theorem radial_projection_scale [Field T] (K : Mat3 T) (k : Fin 3 → T) (X : Vec3 T) (s : T)
    (hs : s ≠ 0) : RadialProjection K k (fun i => s * X i) = RadialProjection K k X := by
  have hn : Normalize (fun i => s * X i) = Normalize X := by
    simp only [Normalize, mul_div_mul_left _ _ hs]
  simp only [RadialProjection, hn]

/-! ## Claims, continued -/

/-- C11 (no failure path): for every input, each of the three functors returns
true and writes the residual given by the projection formula on the transformed
point, with no case distinction on the depth z of that point; this includes the
poses for which z is zero or negative. -/
theorem no_failure_path [Field T] (rotate : Vec3 T → Vec3 T → Vec3 T)
    (fm : ResidualErrorMainCameraFunctor T) (fs : ResidualErrorSecondaryCameraFunctor T)
    (ff : ResidualErrorSecondaryCameraFixedRelativeFunctor T) (p m r q : PoseBlock T) :
    ((fm.operator rotate p).1 = true ∧
      (fm.operator rotate p).2 =
        fun i => RadialProjection fm._K fm._params (RigidTransform rotate p fm._point) i
          - fm._observation i) ∧
    ((fs.operator rotate m r).1 = true ∧
      (fs.operator rotate m r).2 =
        fun i => RadialProjection fs._K fs._params
            (RigidTransform rotate r (RigidTransform rotate m fs._point)) i
          - fs._observation i) ∧
    ((ff.operator rotate q).1 = true ∧
      (ff.operator rotate q).2 =
        fun i => RadialProjection ff._K ff._params
            (RigidTransform rotate ff._relativePose (RigidTransform rotate q ff._point)) i
          - ff._observation i) :=
  ⟨⟨rfl, main_operator_eq fm rotate p⟩, ⟨rfl, secondary_operator_eq fs rotate m r⟩,
    ⟨rfl, fixed_operator_eq ff rotate q⟩⟩

/-- C12 (zero-rotation case): for every point P and translation t, the rigid
transform with the rotation model at the zero axis-angle vector yields exactly
P + t, whatever the square root, sine and cosine are (the identity branch of
the model performs no division); hence the main functor at pose block
(0,0,0,t) returns the projection of P + t minus the observation. -/
theorem zero_rotation_case [Field T] [DecidableEq T] (sqrt sin cos : T → T)
    (f : ResidualErrorMainCameraFunctor T) (P t : Vec3 T) :
    ceres.AngleAxisRotatePoint sqrt sin cos ![0, 0, 0] P = P ∧
    RigidTransform (ceres.AngleAxisRotatePoint sqrt sin cos) ![0, 0, 0, t 0, t 1, t 2] P =
      (fun i => P i + t i) ∧
    (f.operator (ceres.AngleAxisRotatePoint sqrt sin cos) ![0, 0, 0, t 0, t 1, t 2]).2 =
      fun i => RadialProjection f._K f._params (fun j => f._point j + t j) i
        - f._observation i := by
  refine ⟨rotate_zero sqrt sin cos P, rigid_transform_zero_rotation sqrt sin cos P t, ?_⟩
  rw [main_operator_eq, rigid_transform_zero_rotation]

/-- Rows of an orthonormal 3x3 matrix are orthonormal. -/
theorem rotation_rows (R : Matrix (Fin 3) (Fin 3) ℝ) (hR : R * R.transpose = 1) (i j : Fin 3) :
    R i 0 * R j 0 + R i 1 * R j 1 + R i 2 * R j 2 = if i = j then 1 else 0 := by
  have h := congrFun (congrFun hR i) j
  simpa [Matrix.mul_apply, Fin.sum_univ_three, Matrix.one_apply] using h

/-- Columns of an orthonormal 3x3 matrix are orthonormal. -/
theorem rotation_cols (R : Matrix (Fin 3) (Fin 3) ℝ) (hR : R * R.transpose = 1) (i j : Fin 3) :
    R 0 i * R 0 j + R 1 i * R 1 j + R 2 i * R 2 j = if i = j then 1 else 0 := by
  have hR2 : R.transpose * R = 1 := Matrix.mul_eq_one_comm.mp hR
  have h := congrFun (congrFun hR2 i) j
  simpa [Matrix.mul_apply, Fin.sum_univ_three, Matrix.one_apply] using h

/-- The adjugate of a rotation matrix is its transpose. -/
theorem rotation_adjugate (R : Matrix (Fin 3) (Fin 3) ℝ) (hR : R * R.transpose = 1)
    (hdet : R.det = 1) : R.adjugate = R.transpose := by
  calc R.adjugate = R.adjugate * (R * R.transpose) := by rw [hR, mul_one]
    _ = (R.adjugate * R) * R.transpose := by rw [mul_assoc]
    _ = R.transpose := by rw [Matrix.adjugate_mul, hdet, one_smul, one_mul]

/-- Each entry of a rotation matrix equals its cofactor. -/
theorem rotation_cofactors (R : Matrix (Fin 3) (Fin 3) ℝ) (hR : R * R.transpose = 1)
    (hdet : R.det = 1) :
    (R 1 1 * R 2 2 - R 1 2 * R 2 1 = R 0 0 ∧
      -(R 0 1 * R 2 2) + R 0 2 * R 2 1 = R 1 0 ∧
      R 0 1 * R 1 2 - R 0 2 * R 1 1 = R 2 0) ∧
    (-(R 1 0 * R 2 2) + R 1 2 * R 2 0 = R 0 1 ∧
      R 0 0 * R 2 2 - R 0 2 * R 2 0 = R 1 1 ∧
      -(R 0 0 * R 1 2) + R 0 2 * R 1 0 = R 2 1) ∧
    (R 1 0 * R 2 1 - R 1 1 * R 2 0 = R 0 2 ∧
      -(R 0 0 * R 2 1) + R 0 1 * R 2 0 = R 1 2 ∧
      R 0 0 * R 1 1 - R 0 1 * R 1 0 = R 2 2) := by
  have h := rotation_adjugate R hR hdet
  rw [Matrix.adjugate_fin_three] at h
  have e := fun i j => congrFun (congrFun h i) j
  refine ⟨⟨?_, ?_, ?_⟩, ⟨?_, ?_, ?_⟩, ⟨?_, ?_, ?_⟩⟩
  · simpa using e 0 0
  · simpa using e 0 1
  · simpa using e 0 2
  · simpa using e 1 0
  · simpa using e 1 1
  · simpa using e 1 2
  · simpa using e 2 0
  · simpa using e 2 1
  · simpa using e 2 2

/-- Products of the entries of the antisymmetric part of a rotation matrix. -/
theorem rotation_axis_products (R : Matrix (Fin 3) (Fin 3) ℝ) (hR : R * R.transpose = 1)
    (hdet : R.det = 1) :
    ((R 2 1 - R 1 2) * (R 2 1 - R 1 2) =
        (1 + (R 0 0 + R 1 1 + R 2 2)) * (R 0 0 + R 0 0 - (R 0 0 + R 1 1 + R 2 2 - 1)) ∧
      (R 0 2 - R 2 0) * (R 0 2 - R 2 0) =
        (1 + (R 0 0 + R 1 1 + R 2 2)) * (R 1 1 + R 1 1 - (R 0 0 + R 1 1 + R 2 2 - 1)) ∧
      (R 1 0 - R 0 1) * (R 1 0 - R 0 1) =
        (1 + (R 0 0 + R 1 1 + R 2 2)) * (R 2 2 + R 2 2 - (R 0 0 + R 1 1 + R 2 2 - 1))) ∧
    ((R 2 1 - R 1 2) * (R 0 2 - R 2 0) = (1 + (R 0 0 + R 1 1 + R 2 2)) * (R 0 1 + R 1 0) ∧
      (R 2 1 - R 1 2) * (R 1 0 - R 0 1) = (1 + (R 0 0 + R 1 1 + R 2 2)) * (R 0 2 + R 2 0) ∧
      (R 0 2 - R 2 0) * (R 1 0 - R 0 1) = (1 + (R 0 0 + R 1 1 + R 2 2)) * (R 1 2 + R 2 1)) := by
  obtain ⟨⟨c00, c01, c02⟩, ⟨c10, c11, c12⟩, ⟨c20, c21, c22⟩⟩ := rotation_cofactors R hR hdet
  have r00 := rotation_rows R hR 0 0
  have r11 := rotation_rows R hR 1 1
  have r22 := rotation_rows R hR 2 2
  have r01 := rotation_rows R hR 0 1
  have r02 := rotation_rows R hR 0 2
  have r12 := rotation_rows R hR 1 2
  have k00 := rotation_cols R hR 0 0
  have k11 := rotation_cols R hR 1 1
  have k22 := rotation_cols R hR 2 2
  have k01 := rotation_cols R hR 0 1
  have k02 := rotation_cols R hR 0 2
  have k12 := rotation_cols R hR 1 2
  simp only [if_true, Fin.reduceEq, if_false] at r00 r11 r22 r01 r02 r12 k00 k11 k22 k01 k02 k12
  refine ⟨⟨?_, ?_, ?_⟩, ⟨?_, ?_, ?_⟩⟩ <;> linarith

/-- The rotation model over the reals at an axis-angle vector of positive angle
theta and unit axis u is the Rodrigues formula for theta and u. -/
theorem rotate_unit_axis (theta : ℝ) (htheta : 0 < theta) (u0 u1 u2 : ℝ)
    (hu : u0 * u0 + u1 * u1 + u2 * u2 = 1) (pt : Fin 3 → ℝ) :
    ceres.AngleAxisRotatePoint Real.sqrt Real.sin Real.cos
        ![theta * u0, theta * u1, theta * u2] pt =
      ![pt 0 * Real.cos theta + (u1 * pt 2 - u2 * pt 1) * Real.sin theta
          + u0 * ((u0 * pt 0 + u1 * pt 1 + u2 * pt 2) * (1 - Real.cos theta)),
        pt 1 * Real.cos theta + (u2 * pt 0 - u0 * pt 2) * Real.sin theta
          + u1 * ((u0 * pt 0 + u1 * pt 1 + u2 * pt 2) * (1 - Real.cos theta)),
        pt 2 * Real.cos theta + (u0 * pt 1 - u1 * pt 0) * Real.sin theta
          + u2 * ((u0 * pt 0 + u1 * pt 1 + u2 * pt 2) * (1 - Real.cos theta))] := by
  have hne : theta ≠ 0 := ne_of_gt htheta
  have h2 : theta * u0 * (theta * u0) + theta * u1 * (theta * u1) + theta * u2 * (theta * u2)
      = theta * theta := by
    linear_combination theta * theta * hu
  have h2ne : theta * theta ≠ 0 := mul_ne_zero hne hne
  have hsq : Real.sqrt (theta * theta) = theta := Real.sqrt_mul_self htheta.le
  have hw : ∀ x : ℝ, theta * x * (1 / theta) = x := by
    intro x
    field_simp
  simp only [ceres.AngleAxisRotatePoint, Matrix.cons_val_zero, Matrix.cons_val_one,
    Matrix.head_cons, Matrix.cons_val_two, Matrix.tail_cons, h2, if_neg h2ne, hsq, hw]

/-- Product of two entries of the unit axis. -/
theorem axis_product_aux (x y rhs s c : ℝ) (hs : s * s = 1 - c ^ 2) (hc1 : -1 < c)
    (hc2 : c < 1) (h : x * y = (1 + (2 * c + 1)) * rhs) :
    x / (2 * s) * (y / (2 * s)) * (1 - c) = rhs / 2 := by
  have hpos : 0 < 1 - c ^ 2 := by nlinarith
  have e : x / (2 * s) * (y / (2 * s)) * (1 - c) = x * y * (1 - c) / (4 * (s * s)) := by
    ring
  have h1 : (1 : ℝ) - c ^ 2 ≠ 0 := ne_of_gt hpos
  have h2 : (1 : ℝ) + c ≠ 0 := by linarith
  have h3 : (1 : ℝ) - c ≠ 0 := by linarith
  have h4 : (1 : ℝ) - c ^ 2 = (1 - c) * (1 + c) := by ring
  rw [e, h, hs, h4]
  field_simp
  ring

/-- An entry of the unit axis times the sine. -/
theorem axis_sine_aux (x s : ℝ) (hs : s ≠ 0) : x / (2 * s) * s = x / 2 := by
  field_simp
  ring

/-- The trace of a rotation matrix lies between -1 and 3. -/
theorem rotation_trace_bounds (R : Matrix (Fin 3) (Fin 3) ℝ) (hR : R * R.transpose = 1)
    (hdet : R.det = 1) :
    -1 ≤ R 0 0 + R 1 1 + R 2 2 ∧ R 0 0 + R 1 1 + R 2 2 ≤ 3 := by
  obtain ⟨⟨a00, a11, a22⟩, -⟩ := rotation_axis_products R hR hdet
  have r00 := rotation_rows R hR 0 0
  have r11 := rotation_rows R hR 1 1
  have r22 := rotation_rows R hR 2 2
  simp only [if_true] at r00 r11 r22
  have h0 : R 0 0 ≤ 1 := by
    nlinarith [mul_self_nonneg (R 0 0 - 1), mul_self_nonneg (R 0 1), mul_self_nonneg (R 0 2)]
  have h1 : R 1 1 ≤ 1 := by
    nlinarith [mul_self_nonneg (R 1 1 - 1), mul_self_nonneg (R 1 0), mul_self_nonneg (R 1 2)]
  have h2 : R 2 2 ≤ 1 := by
    nlinarith [mul_self_nonneg (R 2 2 - 1), mul_self_nonneg (R 2 0), mul_self_nonneg (R 2 1)]
  have hle : R 0 0 + R 1 1 + R 2 2 ≤ 3 := by linarith
  refine ⟨?_, hle⟩
  by_contra hlt
  push_neg at hlt
  have hsum : (R 2 1 - R 1 2) * (R 2 1 - R 1 2) + (R 0 2 - R 2 0) * (R 0 2 - R 2 0)
      + (R 1 0 - R 0 1) * (R 1 0 - R 0 1)
      = (1 + (R 0 0 + R 1 1 + R 2 2)) * (3 - (R 0 0 + R 1 1 + R 2 2)) := by
    linear_combination a00 + a11 + a22
  have hprod : (1 + (R 0 0 + R 1 1 + R 2 2)) * (3 - (R 0 0 + R 1 1 + R 2 2)) < 0 :=
    mul_neg_of_neg_of_pos (by linarith) (by linarith)
  have hn := add_nonneg (add_nonneg (mul_self_nonneg (R 2 1 - R 1 2))
    (mul_self_nonneg (R 0 2 - R 2 0))) (mul_self_nonneg (R 1 0 - R 0 1))
  linarith

/-- Away from the identity and the half turns, rotating by the converted
axis-angle vector is multiplication by the rotation matrix. -/
theorem roundtrip_generic (R : Matrix (Fin 3) (Fin 3) ℝ) (hR : R * R.transpose = 1)
    (hdet : R.det = 1) (h3 : R 0 0 + R 1 1 + R 2 2 ≠ 3) (hm : R 0 0 + R 1 1 + R 2 2 ≠ -1)
    (pt : Fin 3 → ℝ) :
    ceres.AngleAxisRotatePoint Real.sqrt Real.sin Real.cos
        (ceres.RotationMatrixToAngleAxis Real.sqrt Real.arccos Real.sin R) pt =
      R.mulVec pt := by
  obtain ⟨hlo, hhi⟩ := rotation_trace_bounds R hR hdet
  obtain ⟨⟨a00, a11, a22⟩, ⟨a01, a02, a12⟩⟩ := rotation_axis_products R hR hdet
  have hconv : ceres.RotationMatrixToAngleAxis Real.sqrt Real.arccos Real.sin R =
      ![Real.arccos ((R 0 0 + R 1 1 + R 2 2 - 1) / 2) *
          ((R 2 1 - R 1 2) /
            (2 * Real.sin (Real.arccos ((R 0 0 + R 1 1 + R 2 2 - 1) / 2)))),
        Real.arccos ((R 0 0 + R 1 1 + R 2 2 - 1) / 2) *
          ((R 0 2 - R 2 0) /
            (2 * Real.sin (Real.arccos ((R 0 0 + R 1 1 + R 2 2 - 1) / 2)))),
        Real.arccos ((R 0 0 + R 1 1 + R 2 2 - 1) / 2) *
          ((R 1 0 - R 0 1) /
            (2 * Real.sin (Real.arccos ((R 0 0 + R 1 1 + R 2 2 - 1) / 2))))] := by
    simp only [ceres.RotationMatrixToAngleAxis, if_neg h3, if_neg hm, div_mul_eq_mul_div,
      mul_div_assoc]
  rw [hconv]
  obtain ⟨tr, htr⟩ : ∃ tr, tr = R 0 0 + R 1 1 + R 2 2 := ⟨_, rfl⟩
  rw [← htr] at h3 hm hlo hhi a00 a11 a22 a01 a02 a12 ⊢
  have hlo2 : -1 < tr := lt_of_le_of_ne hlo (Ne.symm hm)
  have hhi2 : tr < 3 := lt_of_le_of_ne hhi h3
  obtain ⟨c, hc⟩ : ∃ c, c = (tr - 1) / 2 := ⟨_, rfl⟩
  rw [← hc]
  have htrc : tr = 2 * c + 1 := by rw [hc]; ring
  have hc1 : -1 < c := by rw [hc]; linarith
  have hc2 : c < 1 := by rw [hc]; linarith
  have hpos : 0 < Real.arccos c := Real.arccos_pos.mpr hc2
  have hcos : Real.cos (Real.arccos c) = c := Real.cos_arccos hc1.le hc2.le
  have hs2pos : 0 < 1 - c ^ 2 := by nlinarith
  have hssq : Real.sin (Real.arccos c) * Real.sin (Real.arccos c) = 1 - c ^ 2 := by
    rw [Real.sin_arccos]
    exact Real.mul_self_sqrt hs2pos.le
  obtain ⟨s, hs⟩ : ∃ s, s = Real.sin (Real.arccos c) := ⟨_, rfl⟩
  rw [← hs] at hssq ⊢
  have hsne : s ≠ 0 := by
    intro h0
    rw [h0, mul_zero] at hssq
    linarith
  rw [htrc] at a00 a11 a22 a01 a02 a12
  have p00 := axis_product_aux _ _ _ s c hssq hc1 hc2 a00
  have p11 := axis_product_aux _ _ _ s c hssq hc1 hc2 a11
  have p22 := axis_product_aux _ _ _ s c hssq hc1 hc2 a22
  have p01 := axis_product_aux _ _ _ s c hssq hc1 hc2 a01
  have p02 := axis_product_aux _ _ _ s c hssq hc1 hc2 a02
  have p12 := axis_product_aux _ _ _ s c hssq hc1 hc2 a12
  have l0 := axis_sine_aux (R 2 1 - R 1 2) s hsne
  have l1 := axis_sine_aux (R 0 2 - R 2 0) s hsne
  have l2 := axis_sine_aux (R 1 0 - R 0 1) s hsne
  have hu : (R 2 1 - R 1 2) / (2 * s) * ((R 2 1 - R 1 2) / (2 * s))
      + (R 0 2 - R 2 0) / (2 * s) * ((R 0 2 - R 2 0) / (2 * s))
      + (R 1 0 - R 0 1) / (2 * s) * ((R 1 0 - R 0 1) / (2 * s)) = 1 := by
    have h1c : 1 - c ≠ 0 := by linarith
    have e : ((R 2 1 - R 1 2) / (2 * s) * ((R 2 1 - R 1 2) / (2 * s))
      + (R 0 2 - R 2 0) / (2 * s) * ((R 0 2 - R 2 0) / (2 * s))
      + (R 1 0 - R 0 1) / (2 * s) * ((R 1 0 - R 0 1) / (2 * s))) * (1 - c) = 1 * (1 - c) := by
      have hrel : R 0 0 + R 1 1 + R 2 2 = 2 * c + 1 := by rw [← htr]; exact htrc
      linear_combination p00 + p11 + p22 + hrel
    exact mul_right_cancel₀ h1c e
  rw [rotate_unit_axis _ hpos _ _ _ hu, hcos, ← hs]
  funext i
  fin_cases i
  · simp only [Matrix.mulVec, Matrix.dotProduct, Fin.sum_univ_three, Matrix.cons_val_zero,
      Fin.zero_eta]
    linear_combination pt 2 * l1 - pt 1 * l2 + pt 0 * p00 + pt 1 * p01 + pt 2 * p02
  · simp only [Matrix.mulVec, Matrix.dotProduct, Fin.sum_univ_three, Matrix.cons_val_one,
      Matrix.head_cons, Fin.mk_one]
    linear_combination pt 0 * l2 - pt 2 * l0 + pt 0 * p01 + pt 1 * p11 + pt 2 * p12
  · simp only [Matrix.mulVec, Matrix.dotProduct, Fin.sum_univ_three, Matrix.cons_val_two,
      Matrix.tail_cons, Matrix.head_cons, Fin.reduceFinMk]
    linear_combination pt 1 * l0 - pt 0 * l1 + pt 0 * p02 + pt 1 * p12 + pt 2 * p22

/-- A rotation matrix of trace 3 is the identity. -/
theorem rotation_trace_three (R : Matrix (Fin 3) (Fin 3) ℝ) (hR : R * R.transpose = 1)
    (h3 : R 0 0 + R 1 1 + R 2 2 = 3) (pt : Fin 3 → ℝ) : R.mulVec pt = pt := by
  have r00 := rotation_rows R hR 0 0
  have r11 := rotation_rows R hR 1 1
  have r22 := rotation_rows R hR 2 2
  simp only [if_true] at r00 r11 r22
  have h0 : R 0 0 ≤ 1 := by
    linarith [mul_self_nonneg (R 0 0 - 1), mul_self_nonneg (R 0 1), mul_self_nonneg (R 0 2)]
  have h1 : R 1 1 ≤ 1 := by
    linarith [mul_self_nonneg (R 1 1 - 1), mul_self_nonneg (R 1 0), mul_self_nonneg (R 1 2)]
  have h2 : R 2 2 ≤ 1 := by
    linarith [mul_self_nonneg (R 2 2 - 1), mul_self_nonneg (R 2 0), mul_self_nonneg (R 2 1)]
  have e0 : R 0 0 = 1 := by linarith
  have e1 : R 1 1 = 1 := by linarith
  have e2 : R 2 2 = 1 := by linarith
  rw [e0] at r00
  rw [e1] at r11
  rw [e2] at r22
  have z01 : R 0 1 = 0 := by
    have : R 0 1 * R 0 1 = 0 := by linarith [mul_self_nonneg (R 0 1), mul_self_nonneg (R 0 2)]
    exact mul_self_eq_zero.mp this
  have z02 : R 0 2 = 0 := by
    have : R 0 2 * R 0 2 = 0 := by linarith [mul_self_nonneg (R 0 1), mul_self_nonneg (R 0 2)]
    exact mul_self_eq_zero.mp this
  have z10 : R 1 0 = 0 := by
    have : R 1 0 * R 1 0 = 0 := by linarith [mul_self_nonneg (R 1 0), mul_self_nonneg (R 1 2)]
    exact mul_self_eq_zero.mp this
  have z12 : R 1 2 = 0 := by
    have : R 1 2 * R 1 2 = 0 := by linarith [mul_self_nonneg (R 1 0), mul_self_nonneg (R 1 2)]
    exact mul_self_eq_zero.mp this
  have z20 : R 2 0 = 0 := by
    have : R 2 0 * R 2 0 = 0 := by linarith [mul_self_nonneg (R 2 0), mul_self_nonneg (R 2 1)]
    exact mul_self_eq_zero.mp this
  have z21 : R 2 1 = 0 := by
    have : R 2 1 * R 2 1 = 0 := by linarith [mul_self_nonneg (R 2 0), mul_self_nonneg (R 2 1)]
    exact mul_self_eq_zero.mp this
  funext i
  fin_cases i <;>
    simp [Matrix.mulVec, Matrix.dotProduct, Fin.sum_univ_three, e0, e1, e2, z01, z02, z10, z12,
      z20, z21]

/-- A rotation matrix of trace -1 is symmetric. -/
theorem rotation_half_turn_symm (R : Matrix (Fin 3) (Fin 3) ℝ) (hR : R * R.transpose = 1)
    (hdet : R.det = 1) (hm : R 0 0 + R 1 1 + R 2 2 = -1) :
    R 1 0 = R 0 1 ∧ R 2 0 = R 0 2 ∧ R 2 1 = R 1 2 := by
  obtain ⟨⟨a00, a11, a22⟩, -⟩ := rotation_axis_products R hR hdet
  rw [hm] at a00 a11 a22
  norm_num at a00 a11 a22
  refine ⟨?_, ?_, ?_⟩ <;> linarith

/-- For a rotation matrix of trace -1 the 2x2 minors of R + 1 that involve a
fixed column vanish. -/
theorem rotation_half_turn_minors (R : Matrix (Fin 3) (Fin 3) ℝ) (hR : R * R.transpose = 1)
    (hdet : R.det = 1) (hm : R 0 0 + R 1 1 + R 2 2 = -1) (i j k : Fin 3) :
    (R + 1) j i * (R + 1) k i = (R + 1) i i * (R + 1) j k := by
  obtain ⟨s10, s20, s21⟩ := rotation_half_turn_symm R hR hdet hm
  obtain ⟨⟨c00, c01, c02⟩, ⟨c10, c11, c12⟩, ⟨c20, c21, c22⟩⟩ := rotation_cofactors R hR hdet
  simp only [s10, s20, s21] at c00 c01 c02 c10 c11 c12 c20 c21 c22
  fin_cases i <;> fin_cases j <;> fin_cases k <;>
    simp only [Matrix.add_apply, Matrix.one_apply, Fin.zero_eta, Fin.mk_one, Fin.reduceFinMk,
      Fin.reduceEq, if_true, if_false, add_zero, s10, s20, s21] <;>
    linarith

/-- Product of two entries of a normalized column. -/
theorem half_axis_product_aux (x y d n rhs : ℝ) (hn : n * n = 2 * d) (hd : 0 < d)
    (h : x * y = d * rhs) : x / n * (y / n) * 2 = rhs := by
  have e : x / n * (y / n) * 2 = x * y * 2 / (n * n) := by ring
  have hd0 : d ≠ 0 := ne_of_gt hd
  rw [e, h, hn]
  field_simp
  ring

/-- For a half turn, rotating by pi about a normalized column of R + 1 with
positive diagonal entry is multiplication by R. -/
theorem roundtrip_half_turn (R : Matrix (Fin 3) (Fin 3) ℝ) (hR : R * R.transpose = 1)
    (hdet : R.det = 1) (hm : R 0 0 + R 1 1 + R 2 2 = -1) (i : Fin 3)
    (hi : 0 < (R + 1) i i) (pt : Fin 3 → ℝ) :
    ceres.AngleAxisRotatePoint Real.sqrt Real.sin Real.cos
        ![Real.pi * ((R + 1) 0 i / Real.sqrt (2 * (R + 1) i i)),
          Real.pi * ((R + 1) 1 i / Real.sqrt (2 * (R + 1) i i)),
          Real.pi * ((R + 1) 2 i / Real.sqrt (2 * (R + 1) i i))] pt =
      R.mulVec pt := by
  have hn : Real.sqrt (2 * (R + 1) i i) * Real.sqrt (2 * (R + 1) i i) = 2 * (R + 1) i i :=
    Real.mul_self_sqrt (by linarith)
  have q := fun j k => half_axis_product_aux _ _ _ _ _ hn hi
    (rotation_half_turn_minors R hR hdet hm i j k)
  have q00 := q 0 0
  have q11 := q 1 1
  have q22 := q 2 2
  have q01 := q 0 1
  have q02 := q 0 2
  have q10 := q 1 0
  have q12 := q 1 2
  have q20 := q 2 0
  have q21 := q 2 1
  simp only [Matrix.add_apply R 1 0 0, Matrix.add_apply R 1 1 1, Matrix.add_apply R 1 2 2,
    Matrix.add_apply R 1 0 1, Matrix.add_apply R 1 0 2, Matrix.add_apply R 1 1 0,
    Matrix.add_apply R 1 1 2, Matrix.add_apply R 1 2 0, Matrix.add_apply R 1 2 1,
    Matrix.one_apply, Fin.reduceEq, if_true, if_false, add_zero]
    at q00 q11 q22 q01 q02 q10 q12 q20 q21
  obtain ⟨n, hnd⟩ : ∃ n, n = Real.sqrt (2 * (R + 1) i i) := ⟨_, rfl⟩
  rw [← hnd] at q00 q11 q22 q01 q02 q10 q12 q20 q21 ⊢
  have hu : (R + 1) 0 i / n * ((R + 1) 0 i / n) + (R + 1) 1 i / n * ((R + 1) 1 i / n)
      + (R + 1) 2 i / n * ((R + 1) 2 i / n) = 1 := by
    linear_combination (1 / 2 : ℝ) * q00 + (1 / 2 : ℝ) * q11 + (1 / 2 : ℝ) * q22
      + (1 / 2 : ℝ) * hm
  rw [rotate_unit_axis _ Real.pi_pos _ _ _ hu, Real.cos_pi, Real.sin_pi]
  funext j
  fin_cases j
  · simp only [Matrix.mulVec, Matrix.dotProduct, Fin.sum_univ_three, Matrix.cons_val_zero,
      Fin.zero_eta]
    linear_combination pt 0 * q00 + pt 1 * q01 + pt 2 * q02
  · simp only [Matrix.mulVec, Matrix.dotProduct, Fin.sum_univ_three, Matrix.cons_val_one,
      Matrix.head_cons, Fin.mk_one]
    linear_combination pt 0 * q10 + pt 1 * q11 + pt 2 * q12
  · simp only [Matrix.mulVec, Matrix.dotProduct, Fin.sum_univ_three, Matrix.cons_val_two,
      Matrix.tail_cons, Matrix.head_cons, Fin.reduceFinMk]
    linear_combination pt 0 * q20 + pt 1 * q21 + pt 2 * q22

/-- Rotating by the converted axis-angle vector is multiplication by the
rotation matrix, for every rotation matrix. -/
theorem rotate_converted (R : Matrix (Fin 3) (Fin 3) ℝ) (hR : R * R.transpose = 1)
    (hdet : R.det = 1) (pt : Fin 3 → ℝ) :
    ceres.AngleAxisRotatePoint Real.sqrt Real.sin Real.cos
        (ceres.RotationMatrixToAngleAxis Real.sqrt Real.arccos Real.sin R) pt =
      R.mulVec pt := by
  by_cases h3 : R 0 0 + R 1 1 + R 2 2 = 3
  · have hzero : ceres.RotationMatrixToAngleAxis Real.sqrt Real.arccos Real.sin R =
        ![0, 0, 0] := by
      simp only [ceres.RotationMatrixToAngleAxis, if_pos h3]
    rw [hzero, rotate_zero, rotation_trace_three R hR h3]
  by_cases hm : R 0 0 + R 1 1 + R 2 2 = -1
  · have hpi : Real.arccos ((R 0 0 + R 1 1 + R 2 2 - 1) / 2) = Real.pi := by
      rw [hm]
      norm_num
    have hS : ∀ j : Fin 3, (R + 1) j j = R j j + 1 := by
      intro j
      simp [Matrix.add_apply]
    simp only [ceres.RotationMatrixToAngleAxis, if_neg h3, if_pos hm, hpi]
    by_cases hA : R 1 1 ≤ R 0 0 ∧ R 2 2 ≤ R 0 0
    · rw [if_pos hA]
      exact roundtrip_half_turn R hR hdet hm 0 (by rw [hS]; linarith [hA.1, hA.2]) pt
    · rw [if_neg hA]
      by_cases hB : R 2 2 ≤ R 1 1
      · rw [if_pos hB]
        refine roundtrip_half_turn R hR hdet hm 1 ?_ pt
        rw [hS]
        rcases not_and_or.mp hA with h | h
        · linarith [not_le.mp h]
        · linarith [not_le.mp h]
      · rw [if_neg hB]
        refine roundtrip_half_turn R hR hdet hm 2 ?_ pt
        rw [hS]
        rcases not_and_or.mp hA with h | h
        · linarith [not_le.mp h, not_le.mp hB]
        · linarith [not_le.mp h, not_le.mp hB]
  · exact roundtrip_generic R hR hdet h3 hm pt

/-- C14 (convert-then-apply round trip): for every rotation matrix R
(orthonormal, determinant 1), translation t and rig pose block p, rotating by
the axis-angle vector that the conversion model assigns to R is multiplication
by R, and the fixed-offset functor constructed with relative pose (R, t)
projects the camera-space point R * (rotate(w, P) + s) + t, where (w, s) are
the rotation and translation parts of p. -/
theorem convert_then_apply (R : Mat3 ℝ) (hR : R * R.transpose = 1) (hdet : R.det = 1)
    (intrinsics : camera.Pinhole ℝ) (pt2d : Vec2 ℝ) (pt3d : Vec3 ℝ) (t : Vec3 ℝ)
    (p : PoseBlock ℝ) :
    (∀ X : Vec3 ℝ,
      ceres.AngleAxisRotatePoint Real.sqrt Real.sin Real.cos
          (ceres.RotationMatrixToAngleAxis Real.sqrt Real.arccos Real.sin R) X =
        R.mulVec X) ∧
    ((ResidualErrorSecondaryCameraFixedRelativeFunctor.construct
        (ceres.RotationMatrixToAngleAxis Real.sqrt Real.arccos Real.sin)
        intrinsics pt2d pt3d ⟨R, t⟩).operator
        (ceres.AngleAxisRotatePoint Real.sqrt Real.sin Real.cos) p).2 =
      fun i => RadialProjection intrinsics.K
          ![intrinsics.getParams 3, intrinsics.getParams 4, intrinsics.getParams 5]
          (fun j => R.mulVec (RigidTransform
            (ceres.AngleAxisRotatePoint Real.sqrt Real.sin Real.cos) p pt3d) j + t j) i
        - pt2d i := by
  refine ⟨rotate_converted R hR hdet, ?_⟩
  rw [fixed_operator_eq]
  simp only [ResidualErrorSecondaryCameraFixedRelativeFunctor.construct]
  rw [rigid_transform_entries, vec3_eta pt3d, vec2_eta pt2d]
  simp only [rotate_converted R hR hdet]

/-- Witness for C14: the quarter turn about the z axis, with rows (0,-1,0),
(1,0,0), (0,0,1), is orthonormal with determinant 1, and rotating (1,0,0) by
its converted axis-angle vector gives its product with (1,0,0). -/
theorem convert_then_apply_witness :
    ((!![0, -1, 0; 1, 0, 0; 0, 0, 1] : Mat3 ℝ) *
        (!![0, -1, 0; 1, 0, 0; 0, 0, 1] : Mat3 ℝ).transpose = 1 ∧
      (!![0, -1, 0; 1, 0, 0; 0, 0, 1] : Mat3 ℝ).det = 1) ∧
    ceres.AngleAxisRotatePoint Real.sqrt Real.sin Real.cos
        (ceres.RotationMatrixToAngleAxis Real.sqrt Real.arccos Real.sin
          (!![0, -1, 0; 1, 0, 0; 0, 0, 1] : Mat3 ℝ)) ![1, 0, 0] =
      (!![0, -1, 0; 1, 0, 0; 0, 0, 1] : Mat3 ℝ).mulVec ![1, 0, 0] := by
  have h1 : (!![0, -1, 0; 1, 0, 0; 0, 0, 1] : Mat3 ℝ) *
      (!![0, -1, 0; 1, 0, 0; 0, 0, 1] : Mat3 ℝ).transpose = 1 := by
    ext i j
    fin_cases i <;> fin_cases j <;>
      simp [Matrix.mul_apply, Fin.sum_univ_three, Matrix.transpose_apply, Matrix.vecHead,
        Matrix.vecTail]
  have h2 : (!![0, -1, 0; 1, 0, 0; 0, 0, 1] : Mat3 ℝ).det = 1 := by
    simp [Matrix.det_fin_three]
  exact ⟨⟨h1, h2⟩, (convert_then_apply _ h1 h2 ⟨1, fun _ => 0⟩ ![0, 0] ![0, 0, 1]
    ![0, 0, 0] ![0, 0, 0, 0, 0, 0]).1 ![1, 0, 0]⟩

/-- C15 (reduction of the joint functor to the main functor): for equal captured
data, the joint secondary functor at main pose (w, t_m) and a relative pose
with zero rotation and translation t_r returns the residual of the main functor
at pose (w, t_m + t_r); with the all-zero relative pose block it returns the
residual of the main functor at (w, t_m). -/
theorem secondary_reduces_to_main [Field T] [DecidableEq T] (sqrt sin cos : T → T)
    (K : Mat3 T) (k : Fin 3 → T) (P : Vec3 T) (o : Vec2 T) (w t_m t_r : Vec3 T) :
    ((ResidualErrorSecondaryCameraFunctor.mk K k P o).operator
        (ceres.AngleAxisRotatePoint sqrt sin cos)
        ![w 0, w 1, w 2, t_m 0, t_m 1, t_m 2] ![0, 0, 0, t_r 0, t_r 1, t_r 2]).2 =
      ((ResidualErrorMainCameraFunctor.mk K k P o).operator
        (ceres.AngleAxisRotatePoint sqrt sin cos)
        ![w 0, w 1, w 2, t_m 0 + t_r 0, t_m 1 + t_r 1, t_m 2 + t_r 2]).2 ∧
    ((ResidualErrorSecondaryCameraFunctor.mk K k P o).operator
        (ceres.AngleAxisRotatePoint sqrt sin cos)
        ![w 0, w 1, w 2, t_m 0, t_m 1, t_m 2] ![0, 0, 0, 0, 0, 0]).2 =
      ((ResidualErrorMainCameraFunctor.mk K k P o).operator
        (ceres.AngleAxisRotatePoint sqrt sin cos)
        ![w 0, w 1, w 2, t_m 0, t_m 1, t_m 2]).2 := by
  have hsum : RigidTransform (ceres.AngleAxisRotatePoint sqrt sin cos)
      ![w 0, w 1, w 2, t_m 0 + t_r 0, t_m 1 + t_r 1, t_m 2 + t_r 2] P =
      fun i => ceres.AngleAxisRotatePoint sqrt sin cos w P i + t_m i + t_r i := by
    have h := rigid_transform_entries (ceres.AngleAxisRotatePoint sqrt sin cos) w
      ![t_m 0 + t_r 0, t_m 1 + t_r 1, t_m 2 + t_r 2] P
    simp only [Matrix.cons_val_zero, Matrix.cons_val_one, Matrix.head_cons,
      Matrix.cons_val_two, Matrix.tail_cons] at h
    rw [h]
    funext i
    fin_cases i <;> simp [add_assoc]
  refine ⟨?_, ?_⟩
  · rw [secondary_operator_eq, main_operator_eq, rigid_transform_zero_rotation,
      rigid_transform_entries, hsum]
  · rw [secondary_operator_eq, main_operator_eq, rigid_transform_zero_pose]

/-- C16 (scale invariance of the projection): for every camera-space point
(x,y,z) with z different from 0 and every scalar s different from 0, negative
ones included, the projection stage gives the same pixel for (s*x, s*y, s*z) as
for (x,y,z); and with zero rotation the main functor returns the same residual
for point P with translation t as for point -P with translation -t. -/
theorem projection_scale_invariant [Field T] [DecidableEq T] (sqrt sin cos : T → T)
    (K : Mat3 T) (k : Fin 3 → T) (o : Vec2 T) :
    (∀ x y z s : T, z ≠ 0 → s ≠ 0 →
      RadialProjection K k ![s * x, s * y, s * z] = RadialProjection K k ![x, y, z]) ∧
    (∀ P t : Vec3 T,
      ((ResidualErrorMainCameraFunctor.mk K k P o).operator
          (ceres.AngleAxisRotatePoint sqrt sin cos) ![0, 0, 0, t 0, t 1, t 2]).2 =
        ((ResidualErrorMainCameraFunctor.mk K k ![-P 0, -P 1, -P 2] o).operator
          (ceres.AngleAxisRotatePoint sqrt sin cos) ![0, 0, 0, -t 0, -t 1, -t 2]).2) := by
  refine ⟨?_, ?_⟩
  · intro x y z s _ hs
    have h : (![s * x, s * y, s * z] : Vec3 T) = fun i => s * (![x, y, z] : Vec3 T) i := by
      funext i
      fin_cases i <;> rfl
    rw [h, radial_projection_scale K k _ s hs]
  · intro P t
    have hneg : (fun i => (![-P 0, -P 1, -P 2] : Vec3 T) i + (![-t 0, -t 1, -t 2] : Vec3 T) i)
        = fun i => (-1 : T) * (P i + t i) := by
      funext i
      fin_cases i <;> simp <;> ring
    have h := rigid_transform_zero_rotation sqrt sin cos ![-P 0, -P 1, -P 2]
      ![-t 0, -t 1, -t 2]
    simp only [Matrix.cons_val_zero, Matrix.cons_val_one, Matrix.head_cons,
      Matrix.cons_val_two, Matrix.tail_cons] at h
    rw [main_operator_eq, main_operator_eq, rigid_transform_zero_rotation, h, hneg,
      radial_projection_scale K k _ (-1) (by simp)]

/-- Witness for C16 over the rationals: the point (1,2,10), whose z is not 0,
and the negative scalar -2 give the same pixel, with coefficients (1,2,3). -/
theorem projection_scale_invariant_witness :
    ((10 : ℚ) ≠ 0 ∧ (-2 : ℚ) ≠ 0) ∧
    RadialProjection (!![1000, 0, 500; 0, 1000, 400; 0, 0, 1] : Mat3 ℚ) ![1, 2, 3]
        ![-2 * 1, -2 * 2, -2 * 10] =
      RadialProjection (!![1000, 0, 500; 0, 1000, 400; 0, 0, 1] : Mat3 ℚ) ![1, 2, 3]
        ![1, 2, 10] :=
  ⟨⟨by norm_num, by norm_num⟩,
    (projection_scale_invariant id id id (!![1000, 0, 500; 0, 1000, 400; 0, 0, 1] : Mat3 ℚ)
      ![1, 2, 3] ![0, 0]).1 1 2 10 (-2) (by norm_num) (by norm_num)⟩

/-- C17 (purely radial distortion): for every input of each functor, the offset
of the predicted pixel from the principal point is the undistorted normalized
point (x_u, y_u) of the transformed point scaled by the single factor focal*c,
with c the radial factor at r2 = x_u^2 + y_u^2:
residual_x + o_x - K02 = K00 * c * x_u and residual_y + o_y - K12 = K00 * c * y_u,
so (residual_x + o_x - K02) * y_u = (residual_y + o_y - K12) * x_u. -/
theorem distortion_is_radial [Field T] (rotate : Vec3 T → Vec3 T → Vec3 T)
    (fm : ResidualErrorMainCameraFunctor T) (fs : ResidualErrorSecondaryCameraFunctor T)
    (ff : ResidualErrorSecondaryCameraFixedRelativeFunctor T) (p m r q : PoseBlock T) :
    let um := Normalize (RigidTransform rotate p fm._point)
    let us := Normalize (RigidTransform rotate r (RigidTransform rotate m fs._point))
    let uf := Normalize (RigidTransform rotate ff._relativePose
      (RigidTransform rotate q ff._point))
    ((fm.operator rotate p).2 0 + fm._observation 0 - fm._K 0 2 =
        fm._K 0 0 * RadialFactor fm._params (SquaredRadius um) * um 0 ∧
      (fm.operator rotate p).2 1 + fm._observation 1 - fm._K 1 2 =
        fm._K 0 0 * RadialFactor fm._params (SquaredRadius um) * um 1 ∧
      ((fm.operator rotate p).2 0 + fm._observation 0 - fm._K 0 2) * um 1 =
        ((fm.operator rotate p).2 1 + fm._observation 1 - fm._K 1 2) * um 0) ∧
    ((fs.operator rotate m r).2 0 + fs._observation 0 - fs._K 0 2 =
        fs._K 0 0 * RadialFactor fs._params (SquaredRadius us) * us 0 ∧
      (fs.operator rotate m r).2 1 + fs._observation 1 - fs._K 1 2 =
        fs._K 0 0 * RadialFactor fs._params (SquaredRadius us) * us 1 ∧
      ((fs.operator rotate m r).2 0 + fs._observation 0 - fs._K 0 2) * us 1 =
        ((fs.operator rotate m r).2 1 + fs._observation 1 - fs._K 1 2) * us 0) ∧
    ((ff.operator rotate q).2 0 + ff._observation 0 - ff._K 0 2 =
        ff._K 0 0 * RadialFactor ff._params (SquaredRadius uf) * uf 0 ∧
      (ff.operator rotate q).2 1 + ff._observation 1 - ff._K 1 2 =
        ff._K 0 0 * RadialFactor ff._params (SquaredRadius uf) * uf 1 ∧
      ((ff.operator rotate q).2 0 + ff._observation 0 - ff._K 0 2) * uf 1 =
        ((ff.operator rotate q).2 1 + ff._observation 1 - ff._K 1 2) * uf 0) := by
  intro um us uf
  have key : ∀ (K : Mat3 T) (k : Fin 3 → T) (o : Vec2 T) (X : Vec3 T),
      RadialProjection K k X 0 - o 0 + o 0 - K 0 2 =
          K 0 0 * RadialFactor k (SquaredRadius (Normalize X)) * Normalize X 0 ∧
        RadialProjection K k X 1 - o 1 + o 1 - K 1 2 =
          K 0 0 * RadialFactor k (SquaredRadius (Normalize X)) * Normalize X 1 ∧
        (RadialProjection K k X 0 - o 0 + o 0 - K 0 2) * Normalize X 1 =
          (RadialProjection K k X 1 - o 1 + o 1 - K 1 2) * Normalize X 0 := by
    intro K k o X
    simp only [RadialProjection, Matrix.cons_val_zero, Matrix.cons_val_one, Matrix.head_cons]
    refine ⟨?_, ?_, ?_⟩ <;> ring
  refine ⟨?_, ?_, ?_⟩
  · rw [main_operator_eq]
    exact key _ _ _ _
  · rw [secondary_operator_eq]
    exact key _ _ _ _
  · rw [fixed_operator_eq]
    exact key _ _ _ _

end rig

end aliceVision
